import Mathlib

/-!
Verification development for the lms-server lecture-unlock and
payment-enrollment reconciliation core.

The definitions below are a shallow embedding of the TypeScript source:

* `LectureProgressService` (initializeLectureProgress, upsertLectureProgress,
  completeLecture, getUserLectureProgress) from the lecture-progress service;
* `OrderService` (verifyPayment, verifyLectureAccess) from the order service;
* `OrderRepository` (create, findByRazorpayOrderId, updatePaymentStatus,
  createOrUpdateEnrollment, unlockCourseLectures, getUserLectureProgress);
* `CourseRepository` (findById, findEnrollment, enrollStudent);
* `LectureRepository.reorderLectures`.

Database rows are lists of records; Prisma upserts become
find-then-map-or-append on those lists (the unique keys are the composite
keys of the schema: (userId, lectureId) for UserLectureProgress,
(userId, courseId) for UserCourseEnrollment, razorpayOrderId for Order).
`new Date()` timestamps are explicit `now : Nat` parameters.  User ids are
the already-resolved internal ids (the service's `resolveUserId` is a pure
identity-provider lookup, orthogonal to every property below; the service
constructor also admits operating directly on internal ids).  Thrown
errors become explicit error results carrying the database state at the
time of the throw.
-/

namespace LMS

inductive OrderStatus where
  | PENDING | COMPLETED | FAILED | CANCELLED | REFUNDED
deriving DecidableEq, Repr

/-- Razorpay gateway-side order status, as consulted by `verifyPayment`
(`orderInfo.status === 'paid'`). -/
inductive GatewayOrderStatus where
  | created | attempted | paid
deriving DecidableEq, Repr

structure Lecture where
  id : Nat
  courseId : Nat
  position : Nat
  isFree : Bool
deriving DecidableEq, Repr

structure Course where
  id : Nat
  price : Option Nat
deriving DecidableEq, Repr

structure Order where
  id : Nat
  razorpayOrderId : Nat
  amount : Nat
  courseId : Nat
  studentId : Nat
  status : OrderStatus
  isPaid : Bool
  paidAt : Option Nat
  razorpayPaymentId : Option Nat
  razorpaySignature : Option Nat
deriving DecidableEq, Repr

structure Enrollment where
  userId : Nat
  courseId : Nat
  orderId : Option Nat
  enrolledAt : Nat
deriving DecidableEq, Repr

structure Progress where
  userId : Nat
  lectureId : Nat
  courseId : Nat
  isCompleted : Bool
  isUnlocked : Bool
  watchedAt : Option Nat
  completedAt : Option Nat
deriving DecidableEq, Repr

structure DB where
  courses : List Course
  lectures : List Lecture
  orders : List Order
  enrollments : List Enrollment
  progress : List Progress
deriving DecidableEq, Repr

/-- The `data` argument of `upsertLectureProgress`: a partial record whose
present keys (`some`) overwrite on update and seed the create branch. -/
structure ProgressData where
  isCompleted : Option Bool
  isUnlocked : Option Bool
  watchedAt : Option Nat
  completedAt : Option Nat
deriving DecidableEq, Repr

/-- Lectures of a course (the `lectures` relation loaded by
`CourseRepository.findById` and the `lecture.findMany({where:{courseId}})`
of `unlockCourseLectures`). -/
def lecturesOf (db : DB) (courseId : Nat) : List Lecture :=
  db.lectures.filter (fun l => l.courseId == courseId)

/-- `CourseRepository.findById`. -/
def findCourseById (db : DB) (id : Nat) : Option Course :=
  db.courses.find? (fun co => co.id == id)

/-- `CourseRepository.findEnrollment`: `userCourseEnrollment.findUnique`
on the (userId, courseId) composite key.  Note it checks only that a row
exists; it never consults the linked order's `isPaid`/`status`. -/
def findEnrollment (db : DB) (userId courseId : Nat) : Option Enrollment :=
  db.enrollments.find? (fun e => e.userId == userId && e.courseId == courseId)

/-- `userLectureProgress.findUnique` on the (userId, lectureId) key. -/
def findLectureProgress (db : DB) (userId lectureId : Nat) : Option Progress :=
  db.progress.find? (fun p => p.userId == userId && p.lectureId == lectureId)

/-- The Prisma `update: { ...data }` clause of `upsertLectureProgress`:
present keys overwrite, absent keys keep the stored value. -/
def applyProgressData (d : ProgressData) (p : Progress) : Progress :=
  { p with
    isCompleted := d.isCompleted.getD p.isCompleted
    isUnlocked := d.isUnlocked.getD p.isUnlocked
    watchedAt := match d.watchedAt with | some t => some t | none => p.watchedAt
    completedAt := match d.completedAt with | some t => some t | none => p.completedAt }

/-- The Prisma `create` clause of `upsertLectureProgress`:
`isCompleted: data.isCompleted || false`, `isUnlocked: data.isUnlocked || false`. -/
def createProgress (userId lectureId courseId : Nat) (d : ProgressData) : Progress :=
  { userId := userId
    lectureId := lectureId
    courseId := courseId
    isCompleted := d.isCompleted.getD false
    isUnlocked := d.isUnlocked.getD false
    watchedAt := d.watchedAt
    completedAt := d.completedAt }

/-- `LectureProgressService.upsertLectureProgress` (the inline
`userLectureProgress.upsert` of `OrderRepository.unlockCourseLectures` has
the identical semantics and is expressed through this definition with
`data = { isUnlocked: true }`). -/
def upsertLectureProgress (db : DB) (userId lectureId courseId : Nat) (d : ProgressData) : DB :=
  if db.progress.any (fun p => p.userId == userId && p.lectureId == lectureId) then
    { db with progress := (db.progress.map
        (fun p => if p.userId == userId && p.lectureId == lectureId then applyProgressData d p else p)) }
  else
    { db with progress := db.progress ++ [createProgress userId lectureId courseId d] }

/-- The `{ isUnlocked: b }` data object (used by the initialization loop
with the computed `shouldUnlock`, and with `true` by the unlock paths). -/
def unlockOnly (b : Bool) : ProgressData :=
  ⟨none, some b, none, none⟩

/-- The `{ isCompleted: true, completedAt: new Date() }` data object of
`completeLecture`. -/
def completionData (now : Nat) : ProgressData :=
  ⟨some true, none, none, some now⟩

/-- Stable insertion into a list sorted by `key` (models the stable
`Array.prototype.sort` comparator `(a, b) => (a.position || 0) - (b.position || 0)`
and Prisma's `orderBy position asc`). -/
def insertByKey {α : Type} (key : α → Nat) (a : α) : List α → List α
  | [] => [a]
  | b :: bs => if key b < key a then b :: insertByKey key a bs else a :: b :: bs

def sortByKey {α : Type} (key : α → Nat) : List α → List α
  | [] => []
  | a :: as => insertByKey key a (sortByKey key as)

def sortLectures (ls : List Lecture) : List Lecture :=
  sortByKey (fun l => l.position) ls

/-- The per-lecture loop of `initializeLectureProgress`: walks the
position-sorted lectures, computing `shouldUnlock` for each from the free
flag, the enrolled/first-lecture rule, and the previous lecture's live
progress, then upserts `{ isUnlocked: shouldUnlock }`. -/
def initUnlockLoop (userId courseId : Nat) (isEnrolled : Bool) :
    DB → Bool → Option Lecture → List Lecture → DB
  | db, _, _, [] => db
  | db, isFirst, prev, l :: rest =>
    let shouldUnlock : Bool :=
      if l.isFree then true
      else if isEnrolled && isFirst then true
      else if isEnrolled then
        match prev with
        | some pl =>
          match findLectureProgress db userId pl.id with
          | some pp => pp.isCompleted
          | none => false
        | none => false
      else false
    let db1 := upsertLectureProgress db userId l.id courseId (unlockOnly shouldUnlock)
    initUnlockLoop userId courseId isEnrolled db1 false (some l) rest

/-- `LectureProgressService.initializeLectureProgress`.  `none` is the
thrown `'Course or lectures not found'`. -/
def initializeLectureProgress (db : DB) (userId courseId : Nat) : Option DB :=
  match findCourseById db courseId with
  | none => none
  | some _ =>
    let isEnrolled := (findEnrollment db userId courseId).isSome
    some (initUnlockLoop userId courseId isEnrolled db true none
      (sortLectures (lecturesOf db courseId)))

/-- `LectureProgressService.completeLecture`: upsert the completion, then
re-read the course's lectures, locate the completed one by id in the
position-sorted list, and if a next lecture exists and an enrollment row
is found, upsert the next lecture's progress to `{ isUnlocked: true }`. -/
def completeLecture (db : DB) (userId lectureId courseId now : Nat) : DB :=
  let db1 := upsertLectureProgress db userId lectureId courseId (completionData now)
  match findCourseById db1 courseId with
  | none => db1
  | some _ =>
    let sorted := sortLectures (lecturesOf db1 courseId)
    match sorted.findIdx? (fun l => l.id == lectureId) with
    | none => db1
    | some i =>
      -- `currentIndex < sortedLectures.length - 1` and indexing at i + 1
      match sorted.get? (i + 1) with
      | some nextLecture =>
        match findEnrollment db1 userId courseId with
        | some _ =>
          upsertLectureProgress db1 userId nextLecture.id courseId (unlockOnly true)
        | none => db1
      | none => db1

/-- `OrderRepository.createOrUpdateEnrollment`: upsert on the
(userId, courseId) key; update sets only `orderId`, create fills the row
(`enrolledAt` from the schema's `now()` default). -/
def createOrUpdateEnrollment (db : DB) (userId courseId orderId now : Nat) : DB :=
  if db.enrollments.any (fun e => e.userId == userId && e.courseId == courseId) then
    { db with enrollments := (db.enrollments.map
        (fun e => if e.userId == userId && e.courseId == courseId then { e with orderId := some orderId } else e)) }
  else
    { db with enrollments := (db.enrollments ++
        [{ userId := userId, courseId := courseId, orderId := some orderId, enrolledAt := now }]) }

/-- `CourseRepository.enrollStudent`: upsert on (userId, courseId);
update refreshes `enrolledAt`, create has no order link. -/
def enrollStudent (db : DB) (courseId studentId now : Nat) : DB :=
  if db.enrollments.any (fun e => e.userId == studentId && e.courseId == courseId) then
    { db with enrollments := (db.enrollments.map
        (fun e => if e.userId == studentId && e.courseId == courseId then { e with enrolledAt := now } else e)) }
  else
    { db with enrollments := (db.enrollments ++
        [{ userId := studentId, courseId := courseId, orderId := none, enrolledAt := now }]) }

/-- `OrderRepository.unlockCourseLectures`: for every lecture of the
course, upsert the (userId, lectureId) progress row; update sets only
`isUnlocked: true`, create is `{ isCompleted: false, isUnlocked: true }`. -/
def unlockCourseLectures (db : DB) (courseId userId : Nat) : DB :=
  (lecturesOf db courseId).foldl
    (fun acc l => upsertLectureProgress acc userId l.id courseId (unlockOnly true)) db

/-- `OrderRepository.findByRazorpayOrderId` (`findFirst` on the unique
`razorpayOrderId` column). -/
def findByRazorpayOrderId (db : DB) (rid : Nat) : Option Order :=
  db.orders.find? (fun o => o.razorpayOrderId == rid)

/-- The payment-data argument of `updatePaymentStatus`. -/
structure PaymentData where
  razorpayPaymentId : Option Nat
  razorpaySignature : Option Nat
  isPaid : Bool
  paidAt : Option Nat
deriving DecidableEq, Repr

/-- The `order.update` data of `updatePaymentStatus`: payment id,
signature and `paidAt` only when provided; `isPaid` always written;
`status` derived as `isPaid ? 'COMPLETED' : 'PENDING'`. -/
def applyPaymentData (pd : PaymentData) (o : Order) : Order :=
  { o with
    razorpayPaymentId := match pd.razorpayPaymentId with | some v => some v | none => o.razorpayPaymentId
    razorpaySignature := match pd.razorpaySignature with | some v => some v | none => o.razorpaySignature
    isPaid := pd.isPaid
    status := if pd.isPaid then OrderStatus.COMPLETED else OrderStatus.PENDING
    paidAt := match pd.paidAt with | some v => some v | none => o.paidAt }

/-- `OrderRepository.updatePaymentStatus`: update the order row keyed by
`razorpayOrderId` (`none` models the Prisma throw when the row is
absent), and if `isPaid`, ensure the enrollment and unlock every lecture
of the course for the order's student. -/
def updatePaymentStatus (db : DB) (rid : Nat) (pd : PaymentData) (now : Nat) :
    Option (DB × Order) :=
  match findByRazorpayOrderId db rid with
  | none => none
  | some o0 =>
    let o := applyPaymentData pd o0
    let db1 := { db with orders := (db.orders.map
        (fun x => if x.razorpayOrderId == rid then applyPaymentData pd x else x)) }
    if pd.isPaid then
      let db2 := createOrUpdateEnrollment db1 o.studentId o.courseId o.id now
      some (unlockCourseLectures db2 o.courseId o.studentId, o)
    else some (db1, o)

/-- `OrderRepository.getUserLectureProgress`: the (userId, courseId)
progress rows joined with their lecture, ordered by lecture position
ascending. -/
def getUserLectureProgress (db : DB) (userId courseId : Nat) : List (Progress × Lecture) :=
  let rows := db.progress.filter (fun p => p.userId == userId && p.courseId == courseId)
  let joined := rows.filterMap
    (fun p => (db.lectures.find? (fun l => l.id == p.lectureId)).map (fun l => (p, l)))
  sortByKey (fun pl => pl.2.position) joined

structure LectureAccess where
  unlockedLectures : Nat
  totalLectures : Nat
  allUnlocked : Bool
deriving DecidableEq, Repr

/-- `OrderService.verifyLectureAccess`: `unlockedLectures` is the COUNT of
progress rows returned for the (user, course) pair (not a filter on
`isUnlocked`); `none` is the thrown error when the course is absent. -/
def verifyLectureAccess (db : DB) (userId courseId : Nat) : Option LectureAccess :=
  match findCourseById db courseId with
  | none => none
  | some _ =>
    let total := (lecturesOf db courseId).length
    let unlocked := (getUserLectureProgress db userId courseId).length
    some ⟨unlocked, total, unlocked == total⟩

/-- The post-write verification block of `OrderService.verifyPayment`
(enrollment re-read, lecture-access re-read, and the self-healing branch:
only a MISSING enrollment is repaired, via `enrollStudent`; a short
unlock count is merely logged). -/
def postPaymentChecks (db : DB) (userId courseId now : Nat) : Option DB :=
  let enrollmentCheck := findEnrollment db userId courseId
  match verifyLectureAccess db userId courseId with
  | none => none
  | some access =>
    if access.allUnlocked && enrollmentCheck.isSome then some db
    else if enrollmentCheck.isNone then some (enrollStudent db courseId userId now)
    else some db

structure VerifyData where
  razorpayOrderId : Nat
  razorpayPaymentId : Nat
  razorpaySignature : Nat
  courseId : Nat
  userId : Nat
deriving DecidableEq, Repr

structure PaymentVerificationResponse where
  success : Bool
  orderId : Option Nat
deriving DecidableEq, Repr

/-- Outcome of `verifyPayment`: a thrown error (carrying the database
state at the throw, i.e. what has been written so far) or a response. -/
inductive VPResult where
  | err (msg : String) (db : DB)
  | ok (db : DB) (res : PaymentVerificationResponse)
deriving DecidableEq, Repr

/-- The payment data `verifyPayment` hands to `updatePaymentStatus`
(`{ razorpayPaymentId, razorpaySignature, isPaid: true, paidAt: new Date() }`). -/
def pdOf (vd : VerifyData) (now : Nat) : PaymentData :=
  ⟨some vd.razorpayPaymentId, some vd.razorpaySignature, true, some now⟩

/-- `OrderService.verifyPayment`: gateway status first; when `paid`,
course lookup, order lookup, `updatePaymentStatus` (which enrolls and
unlocks), then the verification/self-healing block; when not `paid`, a
plain `success: false` response with no writes. -/
def verifyPayment (db : DB) (gatewayStatus : GatewayOrderStatus) (vd : VerifyData) (now : Nat) :
    VPResult :=
  match gatewayStatus with
  | GatewayOrderStatus.paid =>
    match findCourseById db vd.courseId with
    | none => VPResult.err "Course not found" db
    | some _ =>
      match findByRazorpayOrderId db vd.razorpayOrderId with
      | none => VPResult.err "Order not found in database" db
      | some _ =>
        match updatePaymentStatus db vd.razorpayOrderId (pdOf vd now) now with
        | none => VPResult.err "Failed to update payment status" db
        | some (db1, updatedOrder) =>
          match postPaymentChecks db1 vd.userId vd.courseId now with
          | none => VPResult.err "Failed to verify lecture access" db1
          | some db2 => VPResult.ok db2 ⟨true, some updatedOrder.id⟩
  | _ => VPResult.ok db ⟨false, none⟩

/-- The composite database produced by the paid branch of
`updatePaymentStatus` for order `o0` (order row rewritten, enrollment
upserted, all lectures unlocked); used to state the run lemmas. -/
def paidFlowDB (db : DB) (vd : VerifyData) (now : Nat) (o0 : Order) : DB :=
  unlockCourseLectures
    (createOrUpdateEnrollment
      { db with orders := (db.orders.map
          (fun x => if x.razorpayOrderId == vd.razorpayOrderId then applyPaymentData (pdOf vd now) x else x)) }
      o0.studentId o0.courseId o0.id now)
    o0.courseId o0.studentId

/-- `OrderRepository.create`: persist the PENDING order row and
immediately upsert the provisional enrollment linked to it. -/
def orderCreate (db : DB) (newOrderId rid amount courseId studentId now : Nat) : DB :=
  let order : Order :=
    { id := newOrderId, razorpayOrderId := rid, amount := amount
      courseId := courseId, studentId := studentId
      status := OrderStatus.PENDING, isPaid := false, paidAt := none
      razorpayPaymentId := none, razorpaySignature := none }
  let db1 := { db with orders := db.orders ++ [order] }
  createOrUpdateEnrollment db1 studentId courseId newOrderId now

/-- One `lecture.update({where: {id, courseId}, data: {position}})` of the
reorder transaction. -/
def applyLectureOrder (courseId : Nat) (ls : List Lecture) (o : Nat × Nat) : List Lecture :=
  ls.map (fun l => if l.id == o.1 && l.courseId == courseId then { l with position := o.2 } else l)

/-- Pointwise form of the reorder transaction: the sequence of position
updates as seen by a single lecture row (used to reason about the fold in
`reorderLectures`). -/
def applyAssign (courseId : Nat) (lectureOrders : List (Nat × Nat)) (l : Lecture) : Lecture :=
  lectureOrders.foldl
    (fun l o => if l.id == o.1 && l.courseId == courseId then { l with position := o.2 } else l) l

/-- `LectureRepository.reorderLectures`: each update targets a lecture by
unique id filtered to the course; an unmatched update aborts the whole
transaction (`none`, database unchanged).  The membership check against
the initial table is equivalent to checking at each step, since updates
never change ids or course ownership. -/
def reorderLectures (db : DB) (courseId : Nat) (lectureOrders : List (Nat × Nat)) : Option DB :=
  if lectureOrders.all (fun o => db.lectures.any (fun l => l.id == o.1 && l.courseId == courseId)) then
    some { db with lectures := lectureOrders.foldl (applyLectureOrder courseId) db.lectures }
  else none

/-! ### Invariants and observation functions -/

/-- Spec invariant I1: a completed progress row is unlocked. -/
def I1 (db : DB) : Prop :=
  ∀ p ∈ db.progress, p.isCompleted = true → p.isUnlocked = true

/-- The schema's unique constraint on (userId, lectureId). -/
def uniqueProgressKeys (db : DB) : Prop :=
  db.progress.Pairwise (fun p q => p.userId = q.userId → p.lectureId = q.lectureId → False)

/-- Lecture primary keys are unique. -/
def lectureIdsNodup (db : DB) : Prop :=
  (db.lectures.map Lecture.id).Nodup

/-- The denormalized `courseId` of every progress row agrees with its
lecture's course (enforced by the foreign keys plus the write paths). -/
def progressConsistent (db : DB) : Prop :=
  ∀ p ∈ db.progress, ∃ l ∈ db.lectures, l.id = p.lectureId ∧ l.courseId = p.courseId

/-- Some progress row for the pair is unlocked. -/
def unlockedRowExists (db : DB) (userId lectureId : Nat) : Prop :=
  ∃ p ∈ db.progress, p.userId = userId ∧ p.lectureId = lectureId ∧ p.isUnlocked = true

/-- Some progress row for the pair is completed. -/
def completedRowExists (db : DB) (userId lectureId : Nat) : Prop :=
  ∃ p ∈ db.progress, p.userId = userId ∧ p.lectureId = lectureId ∧ p.isCompleted = true

/-- Boolean observation: the pair has an unlocked progress row. -/
def unlockedRowB (db : DB) (userId lectureId : Nat) : Bool :=
  db.progress.any (fun p => p.userId == userId && p.lectureId == lectureId && p.isUnlocked)

/-- Boolean observation: some row violates I1. -/
def violatesI1B (db : DB) : Bool :=
  db.progress.any (fun p => p.isCompleted && !p.isUnlocked)

/-- Enrollment rows for a (user, course) pair. -/
def enrollmentsFor (db : DB) (userId courseId : Nat) : List Enrollment :=
  db.enrollments.filter (fun e => e.userId == userId && e.courseId == courseId)

/-- Progress rows for a (user, course) pair. -/
def rowsFor (db : DB) (userId courseId : Nat) : List Progress :=
  db.progress.filter (fun p => p.userId == userId && p.courseId == courseId)

/-- Order rows carrying a given gateway order id. -/
def ordersWithRid (db : DB) (rid : Nat) : List Order :=
  db.orders.filter (fun o => o.razorpayOrderId == rid)

/-- The database state carried by a `verifyPayment` outcome (for an error,
the state at the throw). -/
def vpDB : VPResult → DB
  | VPResult.err _ db => db
  | VPResult.ok db _ => db

/-- A progress row for the (user, lecture) pair exists. -/
def hasKey (db : DB) (userId lectureId : Nat) : Prop :=
  ∃ p ∈ db.progress, p.userId = userId ∧ p.lectureId = lectureId

/-- Every progress row for the (user, lecture) pair is unlocked. -/
def allKeyUnlocked (db : DB) (userId lectureId : Nat) : Prop :=
  ∀ p ∈ db.progress, p.userId = userId → p.lectureId = lectureId → p.isUnlocked = true

/-- An enrollment row for the (user, course) pair exists. -/
def hasEnrKey (db : DB) (userId courseId : Nat) : Prop :=
  ∃ e ∈ db.enrollments, e.userId = userId ∧ e.courseId = courseId

/-- The schema's unique constraint on (userId, courseId) for enrollments. -/
def uniqueEnrollmentKeys (db : DB) : Prop :=
  db.enrollments.Pairwise (fun e f => e.userId = f.userId → e.courseId = f.courseId → False)

/-! ### Concrete states used by the counterexamples and witnesses -/

/-- One paid lecture, nothing else. -/
def exDB1 : DB :=
  { courses := [{ id := 1, price := some 100 }]
    lectures := [{ id := 1, courseId := 1, position := 1, isFree := false }]
    orders := [], enrollments := [], progress := [] }

/-- Two paid lectures, empty tables. -/
def exDB2 : DB :=
  { courses := [{ id := 1, price := some 100 }]
    lectures := [{ id := 1, courseId := 1, position := 1, isFree := false },
                 { id := 2, courseId := 1, position := 2, isFree := false }]
    orders := [], enrollments := [], progress := [] }

/-- A free first lecture and a paid second one, empty tables. -/
def exDB5 : DB :=
  { courses := [{ id := 1, price := some 100 }]
    lectures := [{ id := 1, courseId := 1, position := 1, isFree := true },
                 { id := 2, courseId := 1, position := 2, isFree := false }]
    orders := [], enrollments := [], progress := [] }

/-- One paid lecture and a pending order that belongs to student 2. -/
def exDB6 : DB :=
  { courses := [{ id := 1, price := some 100 }]
    lectures := [{ id := 1, courseId := 1, position := 1, isFree := false }]
    orders := [{ id := 50, razorpayOrderId := 7, amount := 100, courseId := 1, studentId := 2,
                 status := OrderStatus.PENDING, isPaid := false, paidAt := none,
                 razorpayPaymentId := none, razorpaySignature := none }]
    enrollments := [], progress := [] }

/-- A course with no orders at all. -/
def exDB8 : DB :=
  { courses := [{ id := 1, price := some 100 }]
    lectures := [], orders := [], enrollments := [], progress := [] }

/-- The verification request used by the concrete runs. -/
def exVD : VerifyData :=
  { razorpayOrderId := 7, razorpayPaymentId := 9, razorpaySignature := 3, courseId := 1, userId := 1 }

/-- exDB2 after `OrderRepository.create` (order 50 / gateway id 7 for
student 1): provisional enrollment, order pending. -/
def exDBord : DB :=
  orderCreate exDB2 50 7 100 1 1 10

/-- The order row persisted by that `OrderRepository.create`. -/
def exOrderW : Order :=
  { id := 50, razorpayOrderId := 7, amount := 100, courseId := 1, studentId := 1
    status := OrderStatus.PENDING, isPaid := false, paidAt := none
    razorpayPaymentId := none, razorpaySignature := none }

/-- exDBord after a paid `verifyPayment`: both lectures unlocked. -/
def exDB2paid : DB :=
  vpDB (verifyPayment exDBord GatewayOrderStatus.paid exVD 20)

/-- The pending order row of `exDB6` (it belongs to student 2). -/
def exOrder6 : Order :=
  { id := 50, razorpayOrderId := 7, amount := 100, courseId := 1, studentId := 2
    status := OrderStatus.PENDING, isPaid := false, paidAt := none
    razorpayPaymentId := none, razorpaySignature := none }

/-- exDB6 after a paid `verifyPayment` issued for user 1 (whereas the
order belongs to student 2): the run the C6 analysis exhibits. -/
def exDB6after : DB :=
  vpDB (verifyPayment exDB6 GatewayOrderStatus.paid exVD 20)

/-- exDB2 after swapping the two lectures' positions via
`reorderLectures`. -/
def exDB9r : DB :=
  (reorderLectures exDB2 1 [(1, 2), (2, 1)]).getD exDB2

/-- exDB5 after `OrderRepository.create` only (provisional enrollment,
order never paid). -/
def exDB5ordered : DB :=
  orderCreate exDB5 50 7 100 1 1 10

/-! ## Helper lemmas -/

theorem applyProgressData_userId (d : ProgressData) (p : Progress) :
    (applyProgressData d p).userId = p.userId := rfl

theorem applyProgressData_lectureId (d : ProgressData) (p : Progress) :
    (applyProgressData d p).lectureId = p.lectureId := rfl

theorem applyProgressData_courseId (d : ProgressData) (p : Progress) :
    (applyProgressData d p).courseId = p.courseId := rfl

theorem upsert_courses (db : DB) (u lid c : Nat) (d : ProgressData) :
    (upsertLectureProgress db u lid c d).courses = db.courses := by
  unfold upsertLectureProgress; split <;> rfl

theorem upsert_lectures (db : DB) (u lid c : Nat) (d : ProgressData) :
    (upsertLectureProgress db u lid c d).lectures = db.lectures := by
  unfold upsertLectureProgress; split <;> rfl

theorem upsert_orders (db : DB) (u lid c : Nat) (d : ProgressData) :
    (upsertLectureProgress db u lid c d).orders = db.orders := by
  unfold upsertLectureProgress; split <;> rfl

theorem upsert_enrollments (db : DB) (u lid c : Nat) (d : ProgressData) :
    (upsertLectureProgress db u lid c d).enrollments = db.enrollments := by
  unfold upsertLectureProgress; split <;> rfl

theorem findCourseById_eq_of_courses {db1 db2 : DB} (h : db1.courses = db2.courses) (i : Nat) :
    findCourseById db1 i = findCourseById db2 i := by
  unfold findCourseById; rw [h]

theorem findEnrollment_eq_of_enrollments {db1 db2 : DB}
    (h : db1.enrollments = db2.enrollments) (u c : Nat) :
    findEnrollment db1 u c = findEnrollment db2 u c := by
  unfold findEnrollment; rw [h]

theorem lecturesOf_eq_of_lectures {db1 db2 : DB} (h : db1.lectures = db2.lectures) (c : Nat) :
    lecturesOf db1 c = lecturesOf db2 c := by
  unfold lecturesOf; rw [h]

theorem getUserLectureProgress_congr {db1 db2 : DB}
    (hp : db1.progress = db2.progress) (hl : db1.lectures = db2.lectures) (u c : Nat) :
    getUserLectureProgress db1 u c = getUserLectureProgress db2 u c := by
  unfold getUserLectureProgress; rw [hp, hl]

theorem rowsFor_eq_of_progress {db1 db2 : DB} (h : db1.progress = db2.progress) (u c : Nat) :
    rowsFor db1 u c = rowsFor db2 u c := by
  unfold rowsFor; rw [h]

/-- Case analysis for membership in the progress table after an upsert:
either an old row updated at the key, an old row off the key left alone,
or the freshly created row. -/
theorem mem_upsert_progress {db : DB} {u lid c : Nat} {d : ProgressData} {q : Progress}
    (hq : q ∈ (upsertLectureProgress db u lid c d).progress) :
    (∃ p ∈ db.progress, (q = applyProgressData d p ∧ p.userId = u ∧ p.lectureId = lid) ∨
      (q = p ∧ ¬(p.userId = u ∧ p.lectureId = lid))) ∨
      (q = createProgress u lid c d ∧ ∀ p ∈ db.progress, ¬(p.userId = u ∧ p.lectureId = lid)) := by
  unfold upsertLectureProgress at hq
  split at hq
  · simp only [List.mem_map] at hq
    obtain ⟨p, hp, hpe⟩ := hq
    by_cases hk : (p.userId == u && p.lectureId == lid) = true
    · rw [if_pos hk] at hpe
      simp only [Bool.and_eq_true, beq_iff_eq] at hk
      exact Or.inl ⟨p, hp, Or.inl ⟨hpe.symm, hk.1, hk.2⟩⟩
    · rw [if_neg hk] at hpe
      simp only [Bool.and_eq_true, beq_iff_eq] at hk
      exact Or.inl ⟨p, hp, Or.inr ⟨hpe.symm, hk⟩⟩
  · rename_i hany
    have hno : ∀ p ∈ db.progress, ¬(p.userId = u ∧ p.lectureId = lid) := by
      intro p hp hkey
      exact hany (by
        simp only [List.any_eq_true, Bool.and_eq_true, beq_iff_eq]
        exact ⟨p, hp, hkey.1, hkey.2⟩)
    simp only [List.mem_append, List.mem_singleton] at hq
    rcases hq with hq | hq
    · exact Or.inl ⟨q, hq, Or.inr ⟨rfl, hno q hq⟩⟩
    · exact Or.inr ⟨hq, hno⟩

/-- Old rows survive an upsert, transformed by the update clause exactly
when they match the key. -/
theorem upsert_progress_forward {db : DB} (u lid c : Nat) (d : ProgressData) {p : Progress}
    (hp : p ∈ db.progress) :
    (if p.userId = u ∧ p.lectureId = lid then applyProgressData d p else p) ∈
      (upsertLectureProgress db u lid c d).progress := by
  unfold upsertLectureProgress
  split
  · simp only [List.mem_map]
    refine ⟨p, hp, ?_⟩
    by_cases hk : p.userId = u ∧ p.lectureId = lid
    · rw [if_pos hk, if_pos (by simp [hk.1, hk.2])]
    · rw [if_neg hk, if_neg (by
        simp only [Bool.and_eq_true, beq_iff_eq]
        exact hk)]
  · rw [if_neg ?_]
    · exact List.mem_append_left _ hp
    · rintro ⟨h1, h2⟩
      rename_i hany
      exact hany (by
        simp only [List.any_eq_true, Bool.and_eq_true, beq_iff_eq]
        exact ⟨p, hp, h1, h2⟩)

theorem hasKey_upsert {db : DB} {u lid c : Nat} {d : ProgressData} {u' lid' : Nat} :
    hasKey (upsertLectureProgress db u lid c d) u' lid' ↔
      hasKey db u' lid' ∨ (u' = u ∧ lid' = lid) := by
  constructor
  · rintro ⟨q, hq, hu, hl⟩
    rcases mem_upsert_progress hq with ⟨p, hp, hcase⟩ | ⟨hcr, hnone⟩
    · rcases hcase with ⟨he, _, _⟩ | ⟨he, _⟩
      · refine Or.inl ⟨p, hp, ?_, ?_⟩
        · rw [← hu, he, applyProgressData_userId]
        · rw [← hl, he, applyProgressData_lectureId]
      · rw [he] at hu hl
        exact Or.inl ⟨p, hp, hu, hl⟩
    · rw [hcr] at hu hl
      simp only [createProgress] at hu hl
      exact Or.inr ⟨hu.symm, hl.symm⟩
  · rintro (⟨p, hp, hu, hl⟩ | ⟨hu, hl⟩)
    · have hf := upsert_progress_forward u lid c d hp
      by_cases hk : p.userId = u ∧ p.lectureId = lid
      · rw [if_pos hk] at hf
        exact ⟨_, hf, by rw [applyProgressData_userId, hu], by rw [applyProgressData_lectureId, hl]⟩
      · rw [if_neg hk] at hf
        exact ⟨p, hf, hu, hl⟩
    · subst hu; subst hl
      unfold upsertLectureProgress
      split
      · rename_i hany
        simp only [List.any_eq_true, Bool.and_eq_true, beq_iff_eq] at hany
        obtain ⟨p, hp, h1, h2⟩ := hany
        refine ⟨applyProgressData d p, List.mem_map.2 ⟨p, hp, ?_⟩,
          by rw [applyProgressData_userId, h1], by rw [applyProgressData_lectureId, h2]⟩
        rw [if_pos (by simp [h1, h2])]
      · exact ⟨createProgress _ _ c d, List.mem_append_right _ (List.mem_singleton.2 rfl),
          rfl, rfl⟩

/-- An upsert whose data does not force `isUnlocked` to false keeps every
already-unlocked key fully unlocked. -/
theorem allKeyUnlocked_upsert_of_unlock {db : DB} {u lid c : Nat} {b : Bool} {u' lid' : Nat}
    (hb : b = true) (h : allKeyUnlocked db u' lid') :
    allKeyUnlocked (upsertLectureProgress db u lid c (unlockOnly b)) u' lid' := by
  intro q hq hu hl
  rcases mem_upsert_progress hq with ⟨p, hp, hcase⟩ | ⟨hcr, hnone⟩
  · rcases hcase with ⟨he, _, _⟩ | ⟨he, _⟩
    · subst he; simp [applyProgressData, unlockOnly, hb]
    · subst he; exact h q hp hu hl
  · subst hcr; simp [createProgress, unlockOnly, hb]

/-- An unlock-only upsert makes its own key fully unlocked. -/
theorem allKeyUnlocked_upsert_self {db : DB} (u lid c : Nat) :
    allKeyUnlocked (upsertLectureProgress db u lid c (unlockOnly true)) u lid := by
  intro q hq hu hl
  rcases mem_upsert_progress hq with ⟨p, hp, hcase⟩ | ⟨hcr, hnone⟩
  · rcases hcase with ⟨he, _, _⟩ | ⟨he, hnk⟩
    · subst he; simp [applyProgressData, unlockOnly]
    · subst he; exact absurd ⟨hu, hl⟩ hnk
  · subst hcr; simp [createProgress, unlockOnly]

/-- Upserts never duplicate the (userId, lectureId) key. -/
theorem uniqueProgressKeys_upsert {db : DB} (u lid c : Nat) (d : ProgressData)
    (h : uniqueProgressKeys db) :
    uniqueProgressKeys (upsertLectureProgress db u lid c d) := by
  unfold uniqueProgressKeys at h ⊢
  unfold upsertLectureProgress
  split
  · simp only
    rw [List.pairwise_map]
    refine h.imp_of_mem ?_
    intro p q _ _ hpq
    by_cases hkp : (p.userId == u && p.lectureId == lid) = true <;>
      by_cases hkq : (q.userId == u && q.lectureId == lid) = true <;>
      simp only [hkp, hkq, if_pos, if_neg, ite_true, ite_false,
        applyProgressData_userId, applyProgressData_lectureId] <;>
      exact hpq
  · rename_i hany
    simp only
    rw [List.pairwise_append]
    refine ⟨h, List.pairwise_singleton _ _, ?_⟩
    intro p hp q hq
    simp only [List.mem_singleton] at hq
    subst hq
    intro h1 h2
    exact hany (by
      simp only [List.any_eq_true, Bool.and_eq_true, beq_iff_eq]
      exact ⟨p, hp, by simpa [createProgress] using h1, by simpa [createProgress] using h2⟩)

/-- With unique keys, one unlocked row for a key means every row for that
key is unlocked. -/
theorem allKey_of_pairwise {l : List Progress} {u lid : Nat}
    (huniq : l.Pairwise (fun p q => p.userId = q.userId → p.lectureId = q.lectureId → False))
    {w : Progress} (hw : w ∈ l) (hwu : w.userId = u) (hwl : w.lectureId = lid)
    (hwun : w.isUnlocked = true) :
    ∀ p ∈ l, p.userId = u → p.lectureId = lid → p.isUnlocked = true := by
  induction l with
  | nil => cases hw
  | cons a t ih =>
    rcases List.pairwise_cons.1 huniq with ⟨ha, ht⟩
    intro p hp hpu hpl
    rcases List.mem_cons.1 hp with hpa | hpt
    · rcases List.mem_cons.1 hw with hwa | hwt
      · rw [hpa, ← hwa]; exact hwun
      · exact absurd trivial (fun _ => ha w hwt
          (by rw [← hpa, hpu, hwu]) (by rw [← hpa, hpl, hwl]))
    · rcases List.mem_cons.1 hw with hwa | hwt
      · exact absurd trivial (fun _ => ha p hpt
          (by rw [← hwa, hwu, hpu]) (by rw [← hwa, hwl, hpl]))
      · exact ih ht hwt p hpt hpu hpl

theorem allKeyUnlocked_of_unique {db : DB} {u lid : Nat}
    (huniq : uniqueProgressKeys db) (h : unlockedRowExists db u lid) :
    allKeyUnlocked db u lid := by
  obtain ⟨w, hw, hwu, hwl, hwun⟩ := h
  exact allKey_of_pairwise huniq hw hwu hwl hwun

/-- Updating an already-unlocked row with `{ isUnlocked: true }` changes
nothing. -/
theorem applyProgressData_unlock_id {p : Progress} (h : p.isUnlocked = true) :
    applyProgressData (unlockOnly true) p = p := by
  cases p
  simp only [applyProgressData, unlockOnly, Option.getD_none, Option.getD_some]
  simp only at h
  simp [h]

/-- An unlock-only upsert at an existing, already-unlocked key is the
identity on the database. -/
theorem upsert_unlock_id {db : DB} {u lid : Nat} (c : Nat)
    (hk : hasKey db u lid) (hul : allKeyUnlocked db u lid) :
    upsertLectureProgress db u lid c (unlockOnly true) = db := by
  unfold upsertLectureProgress
  rw [if_pos (by
    simp only [List.any_eq_true, Bool.and_eq_true, beq_iff_eq]
    obtain ⟨p, hp, h1, h2⟩ := hk
    exact ⟨p, hp, h1, h2⟩)]
  have hmap : db.progress.map
      (fun p => if p.userId == u && p.lectureId == lid then applyProgressData (unlockOnly true) p else p) =
      db.progress := by
    have hpt : ∀ p ∈ db.progress,
        (if p.userId == u && p.lectureId == lid then applyProgressData (unlockOnly true) p else p) = p := by
      intro p hp
      by_cases hkp : (p.userId == u && p.lectureId == lid) = true
      · rw [if_pos hkp]
        simp only [Bool.and_eq_true, beq_iff_eq] at hkp
        exact applyProgressData_unlock_id (hul p hp hkp.1 hkp.2)
      · rw [if_neg hkp]
    exact (List.map_congr_left hpt).trans (List.map_id _)
  rw [hmap]

/-- An upsert whose data does not write `isUnlocked := false` keeps an
unlocked row unlocked (the row survives, updated or untouched). -/
theorem unlockedRowExists_upsert {db : DB} (u lid c : Nat) (d : ProgressData) {u' lid' : Nat}
    (hd : d.isUnlocked ≠ some false) (h : unlockedRowExists db u' lid') :
    unlockedRowExists (upsertLectureProgress db u lid c d) u' lid' := by
  obtain ⟨p, hp, h1, h2, h3⟩ := h
  have hf := upsert_progress_forward u lid c d hp
  by_cases hk : p.userId = u ∧ p.lectureId = lid
  · rw [if_pos hk] at hf
    refine ⟨_, hf, by rw [applyProgressData_userId]; exact h1,
      by rw [applyProgressData_lectureId]; exact h2, ?_⟩
    simp only [applyProgressData]
    match hdu : d.isUnlocked with
    | none => simpa [hdu] using h3
    | some true => simp [hdu]
    | some false => exact absurd hdu hd
  · rw [if_neg hk] at hf
    exact ⟨p, hf, h1, h2, h3⟩

/-- An upsert whose data does not write `isCompleted := false` keeps a
completed row completed. -/
theorem completedRowExists_upsert {db : DB} (u lid c : Nat) (d : ProgressData) {u' lid' : Nat}
    (hd : d.isCompleted ≠ some false) (h : completedRowExists db u' lid') :
    completedRowExists (upsertLectureProgress db u lid c d) u' lid' := by
  obtain ⟨p, hp, h1, h2, h3⟩ := h
  have hf := upsert_progress_forward u lid c d hp
  by_cases hk : p.userId = u ∧ p.lectureId = lid
  · rw [if_pos hk] at hf
    refine ⟨_, hf, by rw [applyProgressData_userId]; exact h1,
      by rw [applyProgressData_lectureId]; exact h2, ?_⟩
    simp only [applyProgressData]
    match hdu : d.isCompleted with
    | none => simpa [hdu] using h3
    | some true => simp [hdu]
    | some false => exact absurd hdu hd
  · rw [if_neg hk] at hf
    exact ⟨p, hf, h1, h2, h3⟩

/-- An unlock-only upsert always leaves an unlocked row at its key. -/
theorem unlockedRowExists_upsert_self (db : DB) (u lid c : Nat) :
    unlockedRowExists (upsertLectureProgress db u lid c (unlockOnly true)) u lid := by
  have hk : hasKey (upsertLectureProgress db u lid c (unlockOnly true)) u lid :=
    hasKey_upsert.2 (Or.inr ⟨rfl, rfl⟩)
  obtain ⟨p, hp, h1, h2⟩ := hk
  exact ⟨p, hp, h1, h2, allKeyUnlocked_upsert_self u lid c p hp h1 h2⟩

/-- An upsert that does not write `isCompleted := true` and does not
write `isUnlocked := false` preserves I1. -/
theorem I1_upsert_safe {db : DB} (u lid c : Nat) (d : ProgressData)
    (hdc : d.isCompleted = none) (hdu : d.isUnlocked ≠ some false) (h : I1 db) :
    I1 (upsertLectureProgress db u lid c d) := by
  intro q hq hqc
  rcases mem_upsert_progress hq with ⟨p, hp, hcase⟩ | ⟨hcr, hnone⟩
  · rcases hcase with ⟨he, _, _⟩ | ⟨he, _⟩
    · subst he
      simp only [applyProgressData, hdc, Option.getD_none] at hqc ⊢
      match hdub : d.isUnlocked with
      | none => simpa [hdub] using h p hp hqc
      | some true => simp [hdub]
      | some false => exact absurd hdub hdu
    · subst he; exact h q hp hqc
  · subst hcr
    simp only [createProgress, hdc, Option.getD_none] at hqc
    cases hqc

/-- A completion upsert preserves I1 when the key's row is already
unlocked (and keys are unique). -/
theorem I1_upsert_complete {db : DB} (u lid c now : Nat)
    (huniq : uniqueProgressKeys db) (hrow : unlockedRowExists db u lid) (h : I1 db) :
    I1 (upsertLectureProgress db u lid c (completionData now)) := by
  have hall := allKeyUnlocked_of_unique huniq hrow
  intro q hq hqc
  rcases mem_upsert_progress hq with ⟨p, hp, hcase⟩ | ⟨hcr, hnone⟩
  · rcases hcase with ⟨he, h1, h2⟩ | ⟨he, _⟩
    · subst he
      simp only [applyProgressData, completionData, Option.getD_none]
      exact hall p hp h1 h2
    · subst he; exact h q hp hqc
  · obtain ⟨p, hp, h1, h2, _⟩ := hrow
    exact absurd ⟨h1, h2⟩ (hnone p hp)

/-! ### Enrollment upsert lemmas -/

theorem createOrUpdateEnrollment_courses (db : DB) (u c oid now : Nat) :
    (createOrUpdateEnrollment db u c oid now).courses = db.courses := by
  unfold createOrUpdateEnrollment; split <;> rfl

theorem createOrUpdateEnrollment_lectures (db : DB) (u c oid now : Nat) :
    (createOrUpdateEnrollment db u c oid now).lectures = db.lectures := by
  unfold createOrUpdateEnrollment; split <;> rfl

theorem createOrUpdateEnrollment_orders (db : DB) (u c oid now : Nat) :
    (createOrUpdateEnrollment db u c oid now).orders = db.orders := by
  unfold createOrUpdateEnrollment; split <;> rfl

theorem createOrUpdateEnrollment_progress (db : DB) (u c oid now : Nat) :
    (createOrUpdateEnrollment db u c oid now).progress = db.progress := by
  unfold createOrUpdateEnrollment; split <;> rfl

theorem enrollStudent_courses (db : DB) (c u now : Nat) :
    (enrollStudent db c u now).courses = db.courses := by
  unfold enrollStudent; split <;> rfl

theorem enrollStudent_lectures (db : DB) (c u now : Nat) :
    (enrollStudent db c u now).lectures = db.lectures := by
  unfold enrollStudent; split <;> rfl

theorem enrollStudent_orders (db : DB) (c u now : Nat) :
    (enrollStudent db c u now).orders = db.orders := by
  unfold enrollStudent; split <;> rfl

theorem enrollStudent_progress (db : DB) (c u now : Nat) :
    (enrollStudent db c u now).progress = db.progress := by
  unfold enrollStudent; split <;> rfl

/-- Case analysis for enrollment rows after `createOrUpdateEnrollment`. -/
theorem mem_createOrUpdateEnrollment {db : DB} {u c oid now : Nat} {f : Enrollment}
    (hf : f ∈ (createOrUpdateEnrollment db u c oid now).enrollments) :
    (∃ e ∈ db.enrollments, (f = { e with orderId := some oid } ∧ e.userId = u ∧ e.courseId = c) ∨
      (f = e ∧ ¬(e.userId = u ∧ e.courseId = c))) ∨
      (f = { userId := u, courseId := c, orderId := some oid, enrolledAt := now } ∧
        ∀ e ∈ db.enrollments, ¬(e.userId = u ∧ e.courseId = c)) := by
  unfold createOrUpdateEnrollment at hf
  split at hf
  · simp only [List.mem_map] at hf
    obtain ⟨e, he, hee⟩ := hf
    by_cases hk : (e.userId == u && e.courseId == c) = true
    · rw [if_pos hk] at hee
      simp only [Bool.and_eq_true, beq_iff_eq] at hk
      exact Or.inl ⟨e, he, Or.inl ⟨hee.symm, hk.1, hk.2⟩⟩
    · rw [if_neg hk] at hee
      simp only [Bool.and_eq_true, beq_iff_eq] at hk
      exact Or.inl ⟨e, he, Or.inr ⟨hee.symm, hk⟩⟩
  · rename_i hany
    have hno : ∀ e ∈ db.enrollments, ¬(e.userId = u ∧ e.courseId = c) := by
      intro e he hkey
      exact hany (by
        simp only [List.any_eq_true, Bool.and_eq_true, beq_iff_eq]
        exact ⟨e, he, hkey.1, hkey.2⟩)
    simp only [List.mem_append, List.mem_singleton] at hf
    rcases hf with hf | hf
    · exact Or.inl ⟨f, hf, Or.inr ⟨rfl, hno f hf⟩⟩
    · exact Or.inr ⟨hf, hno⟩

/-- After `createOrUpdateEnrollment`, every key row carries the order id. -/
theorem createOrUpdateEnrollment_sets {db : DB} (u c oid now : Nat) :
    ∀ f ∈ (createOrUpdateEnrollment db u c oid now).enrollments,
      f.userId = u → f.courseId = c → f.orderId = some oid := by
  intro f hf h1 h2
  rcases mem_createOrUpdateEnrollment hf with ⟨e, he, hcase⟩ | ⟨hcr, _⟩
  · rcases hcase with ⟨hee, _, _⟩ | ⟨hee, hnk⟩
    · subst hee; rfl
    · subst hee; exact absurd ⟨h1, h2⟩ hnk
  · subst hcr; rfl

/-- `createOrUpdateEnrollment` leaves an enrollment row at its key. -/
theorem hasEnrKey_createOrUpdateEnrollment (db : DB) (u c oid now : Nat) :
    hasEnrKey (createOrUpdateEnrollment db u c oid now) u c := by
  unfold createOrUpdateEnrollment
  split
  · rename_i hany
    simp only [List.any_eq_true, Bool.and_eq_true, beq_iff_eq] at hany
    obtain ⟨e, he, h1, h2⟩ := hany
    refine ⟨{ e with orderId := some oid }, List.mem_map.2 ⟨e, he, ?_⟩, h1, h2⟩
    rw [if_pos (by simp [h1, h2])]
  · exact ⟨_, List.mem_append_right _ (List.mem_singleton.2 rfl), rfl, rfl⟩

/-- Existing enrollment keys survive both enrollment upserts. -/
theorem hasEnrKey_createOrUpdateEnrollment_mono {db : DB} {u' c' : Nat} (u c oid now : Nat)
    (h : hasEnrKey db u' c') :
    hasEnrKey (createOrUpdateEnrollment db u c oid now) u' c' := by
  obtain ⟨e, he, h1, h2⟩ := h
  unfold createOrUpdateEnrollment
  split
  · refine ⟨_, List.mem_map.2 ⟨e, he, rfl⟩, ?_, ?_⟩ <;>
      by_cases hk : (e.userId == u && e.courseId == c) = true <;>
      simp only [hk, if_pos, if_neg, ite_true, ite_false] <;> simpa
  · exact ⟨e, List.mem_append_left _ he, h1, h2⟩

theorem hasEnrKey_enrollStudent_mono {db : DB} {u' c' : Nat} (c u now : Nat)
    (h : hasEnrKey db u' c') :
    hasEnrKey (enrollStudent db c u now) u' c' := by
  obtain ⟨e, he, h1, h2⟩ := h
  unfold enrollStudent
  split
  · refine ⟨_, List.mem_map.2 ⟨e, he, rfl⟩, ?_, ?_⟩ <;>
      by_cases hk : (e.userId == u && e.courseId == c) = true <;>
      simp only [hk, if_pos, if_neg, ite_true, ite_false] <;> simpa
  · exact ⟨e, List.mem_append_left _ he, h1, h2⟩

theorem hasEnrKey_enrollStudent_self (db : DB) (c u now : Nat) :
    hasEnrKey (enrollStudent db c u now) u c := by
  unfold enrollStudent
  split
  · rename_i hany
    simp only [List.any_eq_true, Bool.and_eq_true, beq_iff_eq] at hany
    obtain ⟨e, he, h1, h2⟩ := hany
    refine ⟨{ e with enrolledAt := now }, List.mem_map.2 ⟨e, he, ?_⟩, h1, h2⟩
    rw [if_pos (by simp [h1, h2])]
  · exact ⟨_, List.mem_append_right _ (List.mem_singleton.2 rfl), rfl, rfl⟩

/-- `enrollStudent` on a pair with no existing row is a plain append. -/
theorem enrollStudent_of_not_exists {db : DB} {u c : Nat} (now : Nat)
    (h : findEnrollment db u c = none) :
    enrollStudent db c u now =
      { db with enrollments := (db.enrollments ++
          [{ userId := u, courseId := c, orderId := none, enrolledAt := now }]) } := by
  unfold enrollStudent
  rw [if_neg ?_]
  intro hany
  simp only [List.any_eq_true] at hany
  obtain ⟨e, he, hk⟩ := hany
  unfold findEnrollment at h
  rw [List.find?_eq_none] at h
  exact h e he hk

/-- An upsert keyed elsewhere, or a fresh append, preserves the
"every key row has this order id" property of a different key with a
live row. -/
theorem enrollKey_orderId_enrollStudent {db : DB} {uK cK : Nat} (c u now : Nat) {oid : Nat}
    (hk : hasEnrKey db uK cK)
    (h : ∀ e ∈ db.enrollments, e.userId = uK → e.courseId = cK → e.orderId = some oid)
    (hrun : findEnrollment db u c = none) :
    ∀ e ∈ (enrollStudent db c u now).enrollments,
      e.userId = uK → e.courseId = cK → e.orderId = some oid := by
  rw [enrollStudent_of_not_exists now hrun]
  intro e he h1 h2
  simp only [List.mem_append, List.mem_singleton] at he
  rcases he with he | he
  · exact h e he h1 h2
  · subst he
    simp only at h1 h2
    obtain ⟨w, hw, hw1, hw2⟩ := hk
    have : (findEnrollment db u c).isSome := by
      unfold findEnrollment
      exact List.find?_isSome.2 ⟨w, hw, by
        simp only [Bool.and_eq_true, beq_iff_eq]
        exact ⟨by rw [hw1, ← h1], by rw [hw2, ← h2]⟩⟩
    rw [hrun] at this
    cases this

/-- `createOrUpdateEnrollment` at a key whose rows already carry the order
id is the identity. -/
theorem createOrUpdateEnrollment_id {db : DB} {u c oid : Nat} (now : Nat)
    (hk : hasEnrKey db u c)
    (h : ∀ e ∈ db.enrollments, e.userId = u → e.courseId = c → e.orderId = some oid) :
    createOrUpdateEnrollment db u c oid now = db := by
  unfold createOrUpdateEnrollment
  rw [if_pos (by
    simp only [List.any_eq_true, Bool.and_eq_true, beq_iff_eq]
    obtain ⟨e, he, h1, h2⟩ := hk
    exact ⟨e, he, h1, h2⟩)]
  have hmap : db.enrollments.map
      (fun e => if e.userId == u && e.courseId == c then { e with orderId := some oid } else e) =
      db.enrollments := by
    have hpt : ∀ e ∈ db.enrollments,
        (if e.userId == u && e.courseId == c then { e with orderId := some oid } else e) = e := by
      intro e he
      by_cases hke : (e.userId == u && e.courseId == c) = true
      · rw [if_pos hke]
        simp only [Bool.and_eq_true, beq_iff_eq] at hke
        have := h e he hke.1 hke.2
        cases e
        simp only at this
        simp [this]
      · rw [if_neg hke]
    exact (List.map_congr_left hpt).trans (List.map_id _)
  rw [hmap]

/-- `findEnrollment` is `isSome` exactly when a key row exists. -/
theorem findEnrollment_isSome_iff {db : DB} {u c : Nat} :
    (findEnrollment db u c).isSome ↔ hasEnrKey db u c := by
  unfold findEnrollment hasEnrKey
  rw [List.find?_isSome]
  constructor
  · rintro ⟨e, he, hk⟩
    simp only [Bool.and_eq_true, beq_iff_eq] at hk
    exact ⟨e, he, hk.1, hk.2⟩
  · rintro ⟨e, he, h1, h2⟩
    exact ⟨e, he, by simp [h1, h2]⟩

/-! ### Sorting lemmas -/

theorem perm_insertByKey {α : Type} (key : α → Nat) (a : α) (l : List α) :
    List.Perm (insertByKey key a l) (a :: l) := by
  induction l with
  | nil => rfl
  | cons b bs ih =>
    unfold insertByKey
    split
    · exact (ih.cons b).trans (List.Perm.swap a b bs)
    · rfl

theorem perm_sortByKey {α : Type} (key : α → Nat) (l : List α) :
    List.Perm (sortByKey key l) l := by
  induction l with
  | nil => rfl
  | cons a as ih =>
    exact (perm_insertByKey key a (sortByKey key as)).trans (ih.cons a)

theorem mem_sortByKey {α : Type} (key : α → Nat) (l : List α) (x : α) :
    x ∈ sortByKey key l ↔ x ∈ l :=
  (perm_sortByKey key l).mem_iff

theorem length_sortByKey {α : Type} (key : α → Nat) (l : List α) :
    (sortByKey key l).length = l.length :=
  (perm_sortByKey key l).length_eq

theorem pairwise_insertByKey {α : Type} (key : α → Nat) (a : α) {l : List α}
    (h : l.Pairwise (fun x y => key x ≤ key y)) :
    (insertByKey key a l).Pairwise (fun x y => key x ≤ key y) := by
  induction l with
  | nil => simp [insertByKey]
  | cons b bs ih =>
    rcases List.pairwise_cons.1 h with ⟨hb, hbs⟩
    unfold insertByKey
    split
    · rename_i hlt
      refine List.pairwise_cons.2 ⟨?_, ih hbs⟩
      intro x hx
      rcases List.mem_cons.1 ((perm_insertByKey key a bs).mem_iff.1 hx) with hxa | hxbs
      · rw [hxa]; exact Nat.le_of_lt hlt
      · exact hb x hxbs
    · rename_i hnlt
      refine List.pairwise_cons.2 ⟨?_, h⟩
      intro x hx
      rcases List.mem_cons.1 hx with hxb | hxbs
      · rw [hxb]; exact Nat.le_of_not_lt hnlt
      · exact Nat.le_trans (Nat.le_of_not_lt hnlt) (hb x hxbs)

theorem pairwise_sortByKey {α : Type} (key : α → Nat) (l : List α) :
    (sortByKey key l).Pairwise (fun x y => key x ≤ key y) := by
  induction l with
  | nil => exact List.Pairwise.nil
  | cons a as ih => exact pairwise_insertByKey key a ih

/-! ### completeLecture structure -/

/-- `completeLecture` is the completion upsert, optionally followed by a
single unlock-only upsert of the next lecture in the sorted order; the
second upsert happens exactly when the course exists, the lecture is
found with a successor, and an enrollment row exists. -/
theorem completeLecture_structure (db : DB) (u lid c now : Nat) :
    (completeLecture db u lid c now = upsertLectureProgress db u lid c (completionData now)) ∨
    (∃ i next,
      (sortLectures (lecturesOf db c)).findIdx? (fun l => l.id == lid) = some i ∧
      (sortLectures (lecturesOf db c)).get? (i + 1) = some next ∧
      (findEnrollment db u c).isSome ∧
      completeLecture db u lid c now =
        upsertLectureProgress (upsertLectureProgress db u lid c (completionData now)) u
          next.id c (unlockOnly true)) := by
  unfold completeLecture
  have hl : lecturesOf (upsertLectureProgress db u lid c (completionData now)) c = lecturesOf db c :=
    lecturesOf_eq_of_lectures (upsert_lectures db u lid c (completionData now)) c
  have he : findEnrollment (upsertLectureProgress db u lid c (completionData now)) u c =
      findEnrollment db u c :=
    findEnrollment_eq_of_enrollments (upsert_enrollments db u lid c (completionData now)) u c
  simp only [hl, he]
  split
  · exact Or.inl rfl
  · split
    · exact Or.inl rfl
    · rename_i i hidx
      split
      · rename_i next hnext
        split
        · rename_i e hen
          exact Or.inr ⟨i, next, hidx, hnext, by rw [hen]; rfl, rfl⟩
        · exact Or.inl rfl
      · exact Or.inl rfl

/-- With an enrollment row present, `completeLecture` unlocks the lecture
that follows the completed one in the current position-sorted order. -/
theorem completeLecture_unlocks_next (db : DB) (u lid c now : Nat) (co : Course) (i : Nat)
    (next : Lecture)
    (hco : findCourseById db c = some co)
    (hidx : (sortLectures (lecturesOf db c)).findIdx? (fun l => l.id == lid) = some i)
    (hnext : (sortLectures (lecturesOf db c)).get? (i + 1) = some next)
    (hen : (findEnrollment db u c).isSome) :
    unlockedRowExists (completeLecture db u lid c now) u next.id := by
  unfold completeLecture
  have hl : lecturesOf (upsertLectureProgress db u lid c (completionData now)) c = lecturesOf db c :=
    lecturesOf_eq_of_lectures (upsert_lectures db u lid c (completionData now)) c
  have he : findEnrollment (upsertLectureProgress db u lid c (completionData now)) u c =
      findEnrollment db u c :=
    findEnrollment_eq_of_enrollments (upsert_enrollments db u lid c (completionData now)) u c
  have hco' : findCourseById (upsertLectureProgress db u lid c (completionData now)) c = some co := by
    rw [findCourseById_eq_of_courses (upsert_courses db u lid c (completionData now)) c, hco]
  simp only [hl, he, hco', hidx, hnext]
  cases hen' : findEnrollment db u c with
  | none => rw [hen'] at hen; cases hen
  | some e => exact unlockedRowExists_upsert_self _ u _ c

/-! ### Lemmas about the unlock-all fold -/

theorem unlockFold_courses (ls : List Lecture) (db : DB) (u c : Nat) :
    (ls.foldl (fun acc l => upsertLectureProgress acc u l.id c (unlockOnly true)) db).courses =
      db.courses := by
  induction ls generalizing db with
  | nil => rfl
  | cons a t ih => rw [List.foldl_cons, ih, upsert_courses]

theorem unlockFold_lectures (ls : List Lecture) (db : DB) (u c : Nat) :
    (ls.foldl (fun acc l => upsertLectureProgress acc u l.id c (unlockOnly true)) db).lectures =
      db.lectures := by
  induction ls generalizing db with
  | nil => rfl
  | cons a t ih => rw [List.foldl_cons, ih, upsert_lectures]

theorem unlockFold_orders (ls : List Lecture) (db : DB) (u c : Nat) :
    (ls.foldl (fun acc l => upsertLectureProgress acc u l.id c (unlockOnly true)) db).orders =
      db.orders := by
  induction ls generalizing db with
  | nil => rfl
  | cons a t ih => rw [List.foldl_cons, ih, upsert_orders]

theorem unlockFold_enrollments (ls : List Lecture) (db : DB) (u c : Nat) :
    (ls.foldl (fun acc l => upsertLectureProgress acc u l.id c (unlockOnly true)) db).enrollments =
      db.enrollments := by
  induction ls generalizing db with
  | nil => rfl
  | cons a t ih => rw [List.foldl_cons, ih, upsert_enrollments]

theorem unlockFold_hasKey (ls : List Lecture) (db : DB) (u c : Nat) (u' lid' : Nat) :
    hasKey (ls.foldl (fun acc l => upsertLectureProgress acc u l.id c (unlockOnly true)) db) u' lid' ↔
      hasKey db u' lid' ∨ (u' = u ∧ lid' ∈ ls.map Lecture.id) := by
  induction ls generalizing db with
  | nil => simp
  | cons a t ih =>
    rw [List.foldl_cons, ih]
    rw [hasKey_upsert]
    constructor
    · rintro ((h | ⟨h1, h2⟩) | h)
      · exact Or.inl h
      · exact Or.inr ⟨h1, by simp [h2]⟩
      · exact Or.inr ⟨h.1, by simp [h.2]⟩
    · rintro (h | ⟨h1, h2⟩)
      · exact Or.inl (Or.inl h)
      · simp only [List.map_cons, List.mem_cons] at h2
        rcases h2 with h2 | h2
        · exact Or.inl (Or.inr ⟨h1, h2⟩)
        · exact Or.inr ⟨h1, h2⟩

theorem unlockFold_allKeyUnlocked_mono (ls : List Lecture) (db : DB) (u c : Nat) {u' lid' : Nat}
    (h : allKeyUnlocked db u' lid') :
    allKeyUnlocked (ls.foldl (fun acc l => upsertLectureProgress acc u l.id c (unlockOnly true)) db)
      u' lid' := by
  induction ls generalizing db with
  | nil => exact h
  | cons a t ih =>
    rw [List.foldl_cons]
    exact ih _ (allKeyUnlocked_upsert_of_unlock rfl h)

theorem unlockFold_allKeyUnlocked (ls : List Lecture) (db : DB) (u c : Nat) :
    ∀ l ∈ ls, allKeyUnlocked
      (ls.foldl (fun acc l => upsertLectureProgress acc u l.id c (unlockOnly true)) db) u l.id := by
  induction ls generalizing db with
  | nil => intro l hl; cases hl
  | cons a t ih =>
    intro l hl
    rw [List.foldl_cons]
    rcases List.mem_cons.1 hl with hla | hlt
    · subst hla
      exact unlockFold_allKeyUnlocked_mono t _ u c (allKeyUnlocked_upsert_self u l.id c)
    · exact ih _ l hlt

theorem unlockFold_unique (ls : List Lecture) (db : DB) (u c : Nat)
    (h : uniqueProgressKeys db) :
    uniqueProgressKeys
      (ls.foldl (fun acc l => upsertLectureProgress acc u l.id c (unlockOnly true)) db) := by
  induction ls generalizing db with
  | nil => exact h
  | cons a t ih =>
    rw [List.foldl_cons]
    exact ih _ (uniqueProgressKeys_upsert u a.id c (unlockOnly true) h)

theorem unlockFold_origin (ls : List Lecture) (db : DB) (u c : Nat) :
    ∀ q ∈ (ls.foldl (fun acc l => upsertLectureProgress acc u l.id c (unlockOnly true)) db).progress,
      (∃ p ∈ db.progress,
        q.userId = p.userId ∧ q.lectureId = p.lectureId ∧ q.courseId = p.courseId) ∨
      (q.userId = u ∧ q.courseId = c ∧ q.lectureId ∈ ls.map Lecture.id) := by
  induction ls generalizing db with
  | nil => intro q hq; exact Or.inl ⟨q, hq, rfl, rfl, rfl⟩
  | cons a t ih =>
    intro q hq
    rw [List.foldl_cons] at hq
    rcases ih _ q hq with ⟨p, hp, h1, h2, h3⟩ | ⟨h1, h2, h3⟩
    · rcases mem_upsert_progress hp with ⟨r, hr, hcase⟩ | ⟨hcr, _⟩
      · rcases hcase with ⟨he, _, _⟩ | ⟨he, _⟩
        · subst he
          exact Or.inl ⟨r, hr, by rw [h1, applyProgressData_userId],
            by rw [h2, applyProgressData_lectureId], by rw [h3, applyProgressData_courseId]⟩
        · subst he
          exact Or.inl ⟨_, hr, h1, h2, h3⟩
      · subst hcr
        simp only [createProgress] at h1 h2 h3
        exact Or.inr ⟨h1, h3, by simp [h2]⟩
    · exact Or.inr ⟨h1, h2, by simp only [List.map_cons, List.mem_cons]; exact Or.inr h3⟩

theorem unlockFold_id (ls : List Lecture) (db : DB) (u c : Nat)
    (h : ∀ l ∈ ls, hasKey db u l.id ∧ allKeyUnlocked db u l.id) :
    ls.foldl (fun acc l => upsertLectureProgress acc u l.id c (unlockOnly true)) db = db := by
  induction ls generalizing db with
  | nil => rfl
  | cons a t ih =>
    rw [List.foldl_cons]
    rw [upsert_unlock_id c (h a (List.mem_cons_self a t)).1 (h a (List.mem_cons_self a t)).2]
    exact ih _ (fun l hl => h l (List.mem_cons_of_mem a hl))

theorem unlockFold_I1 (ls : List Lecture) (db : DB) (u c : Nat) (h : I1 db) :
    I1 (ls.foldl (fun acc l => upsertLectureProgress acc u l.id c (unlockOnly true)) db) := by
  induction ls generalizing db with
  | nil => exact h
  | cons a t ih =>
    rw [List.foldl_cons]
    exact ih _ (I1_upsert_safe u a.id c (unlockOnly true) rfl (by simp [unlockOnly]) h)

theorem unlockFold_unlockedRowExists (ls : List Lecture) (db : DB) (u c : Nat) {u' lid' : Nat}
    (h : unlockedRowExists db u' lid') :
    unlockedRowExists
      (ls.foldl (fun acc l => upsertLectureProgress acc u l.id c (unlockOnly true)) db) u' lid' := by
  induction ls generalizing db with
  | nil => exact h
  | cons a t ih =>
    rw [List.foldl_cons]
    exact ih _ (unlockedRowExists_upsert u a.id c (unlockOnly true) (by simp [unlockOnly]) h)

theorem unlockFold_completedRowExists (ls : List Lecture) (db : DB) (u c : Nat) {u' lid' : Nat}
    (h : completedRowExists db u' lid') :
    completedRowExists
      (ls.foldl (fun acc l => upsertLectureProgress acc u l.id c (unlockOnly true)) db) u' lid' := by
  induction ls generalizing db with
  | nil => exact h
  | cons a t ih =>
    rw [List.foldl_cons]
    exact ih _ (completedRowExists_upsert u a.id c (unlockOnly true) (by simp [unlockOnly]) h)

/-! ### Counting the rows after a full unlock -/

theorem mem_rowsFor {db : DB} {u c : Nat} {p : Progress} :
    p ∈ rowsFor db u c ↔ p ∈ db.progress ∧ p.userId = u ∧ p.courseId = c := by
  unfold rowsFor
  rw [List.mem_filter]
  simp [Bool.and_eq_true, beq_iff_eq, and_assoc]

theorem mem_lecturesOf {db : DB} {c : Nat} {l : Lecture} :
    l ∈ lecturesOf db c ↔ l ∈ db.lectures ∧ l.courseId = c := by
  unfold lecturesOf
  rw [List.mem_filter]
  simp

theorem lecture_id_inj {db : DB} (hids : lectureIdsNodup db) {l l' : Lecture}
    (hl : l ∈ db.lectures) (hl' : l' ∈ db.lectures) (h : l.id = l'.id) : l = l' :=
  List.inj_on_of_nodup_map hids hl hl' h

theorem nodup_ids_lecturesOf {db : DB} (hids : lectureIdsNodup db) (c : Nat) :
    ((lecturesOf db c).map Lecture.id).Nodup :=
  List.Nodup.sublist (List.Sublist.map Lecture.id (List.filter_sublist _)) hids

theorem nodup_keys_rowsFor {db : DB} (huniq : uniqueProgressKeys db) (u c : Nat) :
    ((rowsFor db u c).map Progress.lectureId).Nodup := by
  have hpw : (rowsFor db u c).Pairwise
      (fun p q => p.userId = q.userId → p.lectureId = q.lectureId → False) :=
    List.Pairwise.sublist (List.filter_sublist _) huniq
  unfold List.Nodup
  rw [List.pairwise_map]
  refine hpw.imp_of_mem ?_
  intro p q hp hq hr hne
  exact hr ((mem_rowsFor.1 hp).2.1.trans (mem_rowsFor.1 hq).2.1.symm) hne

/-- After `unlockCourseLectures`, the (user, course) progress rows are in
bijection with the course's lectures (one row per lecture id) and every
one of them is unlocked. -/
theorem unlock_rowsFor_spec (db : DB) (c u : Nat)
    (huniq : uniqueProgressKeys db) (hcons : progressConsistent db) (hids : lectureIdsNodup db) :
    (∀ lid, lid ∈ (rowsFor (unlockCourseLectures db c u) u c).map Progress.lectureId ↔
        lid ∈ (lecturesOf db c).map Lecture.id) ∧
    (∀ p ∈ rowsFor (unlockCourseLectures db c u) u c, p.isUnlocked = true) ∧
    (rowsFor (unlockCourseLectures db c u) u c).length = (lecturesOf db c).length := by
  have hmemdir : ∀ lid, lid ∈ (rowsFor (unlockCourseLectures db c u) u c).map Progress.lectureId →
      lid ∈ (lecturesOf db c).map Lecture.id := by
    intro lid h
    simp only [List.mem_map] at h
    obtain ⟨p, hp, hpl⟩ := h
    obtain ⟨hpm, hpu, hpc⟩ := mem_rowsFor.1 hp
    unfold unlockCourseLectures at hpm
    rcases unlockFold_origin (lecturesOf db c) db u c p hpm with ⟨r, hr, _, h2, h3⟩ | ⟨_, _, h3⟩
    · obtain ⟨l, hl, hl1, hl2⟩ := hcons r hr
      exact List.mem_map.2 ⟨l, mem_lecturesOf.2 ⟨hl, by rw [hl2, ← h3, hpc]⟩,
        by rw [hl1, ← h2, hpl]⟩
    · exact hpl ▸ h3
  have hmemrev : ∀ lid, lid ∈ (lecturesOf db c).map Lecture.id →
      lid ∈ (rowsFor (unlockCourseLectures db c u) u c).map Progress.lectureId := by
    intro lid h
    have hkey : hasKey (unlockCourseLectures db c u) u lid := by
      unfold unlockCourseLectures
      exact (unlockFold_hasKey (lecturesOf db c) db u c u lid).2 (Or.inr ⟨rfl, h⟩)
    obtain ⟨q, hq, hq1, hq2⟩ := hkey
    simp only [List.mem_map] at h
    obtain ⟨l, hl, hle⟩ := h
    have hqc : q.courseId = c := by
      have hqm := hq
      unfold unlockCourseLectures at hqm
      rcases unlockFold_origin (lecturesOf db c) db u c q hqm with ⟨r, hr, _, h2, h3⟩ | ⟨_, h3, _⟩
      · obtain ⟨l', hl', hl1, hl2⟩ := hcons r hr
        have hll : l = l' :=
          lecture_id_inj hids (mem_lecturesOf.1 hl).1 hl' (by rw [hle, ← hq2, h2, ← hl1])
        calc q.courseId = r.courseId := h3
          _ = l'.courseId := hl2.symm
          _ = l.courseId := by rw [hll]
          _ = c := (mem_lecturesOf.1 hl).2
      · exact h3
    exact List.mem_map.2 ⟨q, mem_rowsFor.2 ⟨hq, hq1, hqc⟩, hq2⟩
  have hunl : ∀ p ∈ rowsFor (unlockCourseLectures db c u) u c, p.isUnlocked = true := by
    intro p hp
    obtain ⟨hpm, hpu, hpc⟩ := mem_rowsFor.1 hp
    have hid : p.lectureId ∈ (lecturesOf db c).map Lecture.id :=
      hmemdir p.lectureId (List.mem_map.2 ⟨p, hp, rfl⟩)
    simp only [List.mem_map] at hid
    obtain ⟨l, hl, hle⟩ := hid
    have hpm' := hpm
    unfold unlockCourseLectures at hpm'
    exact unlockFold_allKeyUnlocked (lecturesOf db c) db u c l hl p hpm' hpu hle.symm
  refine ⟨fun lid => ⟨hmemdir lid, hmemrev lid⟩, hunl, ?_⟩
  have hnodK : ((rowsFor (unlockCourseLectures db c u) u c).map Progress.lectureId).Nodup := by
    refine nodup_keys_rowsFor ?_ u c
    unfold unlockCourseLectures
    exact unlockFold_unique (lecturesOf db c) db u c huniq
  have hnodI : ((lecturesOf db c).map Lecture.id).Nodup := nodup_ids_lecturesOf hids c
  have hperm : List.Perm ((rowsFor (unlockCourseLectures db c u) u c).map Progress.lectureId)
      ((lecturesOf db c).map Lecture.id) := by
    refine List.perm_of_nodup_nodup_toFinset_eq hnodK hnodI (Finset.ext (fun a => ?_))
    simp only [List.mem_toFinset]
    exact ⟨hmemdir a, hmemrev a⟩
  have hlen := hperm.length_eq
  rwa [List.length_map, List.length_map] at hlen

theorem uniqueProgressKeys_of_eq {db1 db2 : DB} (h : db1.progress = db2.progress)
    (hk : uniqueProgressKeys db2) : uniqueProgressKeys db1 := by
  unfold uniqueProgressKeys; rw [h]; exact hk

theorem progressConsistent_of_eq {db1 db2 : DB} (hp : db1.progress = db2.progress)
    (hl : db1.lectures = db2.lectures) (h : progressConsistent db2) : progressConsistent db1 := by
  unfold progressConsistent; rw [hp, hl]; exact h

theorem lectureIdsNodup_of_eq {db1 db2 : DB} (hl : db1.lectures = db2.lectures)
    (h : lectureIdsNodup db2) : lectureIdsNodup db1 := by
  unfold lectureIdsNodup; rw [hl]; exact h

theorem length_filterMap_of_isSome {α β : Type} (f : α → Option β) :
    ∀ l : List α, (∀ a ∈ l, (f a).isSome) → (l.filterMap f).length = l.length := by
  intro l
  induction l with
  | nil => intro _; rfl
  | cons a t ih =>
    intro h
    have ha := h a (List.mem_cons_self a t)
    cases hfa : f a with
    | none => rw [hfa] at ha; cases ha
    | some b =>
      rw [List.filterMap_cons, hfa]
      simp only [List.length_cons]
      rw [ih (fun x hx => h x (List.mem_cons_of_mem a hx))]

/-- Structure of the `getUserLectureProgress` read: when every row's
lecture resolves, the result is a permutation of the (user, course) rows
joined with their lectures, sorted by position. -/
theorem getUserLectureProgress_spec (db : DB) (u c : Nat)
    (hfind : ∀ p ∈ rowsFor db u c, (db.lectures.find? (fun l => l.id == p.lectureId)).isSome) :
    (getUserLectureProgress db u c).length = (rowsFor db u c).length ∧
    (∀ pl ∈ getUserLectureProgress db u c,
      pl.1 ∈ rowsFor db u c ∧ pl.2.id = pl.1.lectureId ∧ pl.2 ∈ db.lectures) ∧
    (getUserLectureProgress db u c).Pairwise (fun x y => x.2.position ≤ y.2.position) ∧
    (∀ p ∈ rowsFor db u c, ∃ pl ∈ getUserLectureProgress db u c, pl.1 = p) := by
  rw [show getUserLectureProgress db u c = sortByKey (fun pl => pl.2.position)
      ((rowsFor db u c).filterMap
        (fun p => (db.lectures.find? (fun l => l.id == p.lectureId)).map (fun l => (p, l))))
    from rfl]
  constructor
  · rw [length_sortByKey]
    rw [length_filterMap_of_isSome _ _ ?_]
    intro p hp
    cases hf : db.lectures.find? (fun l => l.id == p.lectureId) with
    | none => have := hfind p hp; rw [hf] at this; cases this
    | some l => simp [hf]
  constructor
  · intro pl hpl
    rw [mem_sortByKey] at hpl
    rw [List.mem_filterMap] at hpl
    obtain ⟨p, hp, hfp⟩ := hpl
    cases hf : db.lectures.find? (fun l => l.id == p.lectureId) with
    | none => rw [hf] at hfp; cases hfp
    | some l =>
      rw [hf] at hfp
      have hple : pl = (p, l) := (Option.some.inj hfp).symm
      rw [hple]
      refine ⟨hp, ?_, List.mem_of_find?_eq_some hf⟩
      have := List.find?_some hf
      simpa using this
  constructor
  · exact pairwise_sortByKey _ _
  · intro p hp
    have hs := hfind p hp
    rw [Option.isSome_iff_exists] at hs
    obtain ⟨l, hl⟩ := hs
    refine ⟨(p, l), ?_, rfl⟩
    rw [mem_sortByKey, List.mem_filterMap]
    exact ⟨p, hp, by rw [hl]; rfl⟩

/-! ### Payment update and verification structure -/

theorem applyPaymentData_id (pd : PaymentData) (o : Order) :
    (applyPaymentData pd o).id = o.id := rfl

theorem applyPaymentData_razorpayOrderId (pd : PaymentData) (o : Order) :
    (applyPaymentData pd o).razorpayOrderId = o.razorpayOrderId := rfl

theorem applyPaymentData_courseId (pd : PaymentData) (o : Order) :
    (applyPaymentData pd o).courseId = o.courseId := rfl

theorem applyPaymentData_studentId (pd : PaymentData) (o : Order) :
    (applyPaymentData pd o).studentId = o.studentId := rfl

theorem find?_map_same_pred {α : Type} (p : α → Bool) (g : α → α) (hg : ∀ a, p (g a) = p a) :
    ∀ l : List α, (l.map g).find? p = (l.find? p).map g := by
  intro l
  induction l with
  | nil => rfl
  | cons a t ih =>
    rw [List.map_cons]
    cases hpa : p a with
    | true =>
      rw [List.find?_cons_of_pos _ (by rw [hg a]; exact hpa), List.find?_cons_of_pos _ hpa]
      rfl
    | false =>
      rw [List.find?_cons_of_neg _ (by simp [hg a, hpa]), List.find?_cons_of_neg _ (by simp [hpa])]
      exact ih

theorem length_filter_map_same_pred {α : Type} (p : α → Bool) (g : α → α)
    (hg : ∀ a, p (g a) = p a) :
    ∀ l : List α, ((l.map g).filter p).length = (l.filter p).length := by
  intro l
  induction l with
  | nil => rfl
  | cons a t ih =>
    rw [List.map_cons]
    cases hpa : p a with
    | true =>
      rw [List.filter_cons_of_pos (by rw [hg a]; exact hpa), List.filter_cons_of_pos hpa]
      simp only [List.length_cons]
      rw [ih]
    | false =>
      rw [List.filter_cons_of_neg (by simp [hg a, hpa]), List.filter_cons_of_neg (by simp [hpa])]
      exact ih

/-- `updatePaymentStatus` with a paid payload: update the order row, then
enroll and unlock for the order's student and course. -/
theorem updatePaymentStatus_eq (db : DB) (rid now : Nat) (pd : PaymentData) (o0 : Order)
    (ho : findByRazorpayOrderId db rid = some o0) (hp : pd.isPaid = true) :
    updatePaymentStatus db rid pd now = some
      (unlockCourseLectures
        (createOrUpdateEnrollment
          { db with orders := (db.orders.map
              (fun x => if x.razorpayOrderId == rid then applyPaymentData pd x else x)) }
          o0.studentId o0.courseId o0.id now)
        o0.courseId o0.studentId,
      applyPaymentData pd o0) := by
  unfold updatePaymentStatus
  rw [ho]
  simp only [hp, if_true, applyPaymentData_id, applyPaymentData_courseId, applyPaymentData_studentId]

/-- The post-write verification block either leaves the state alone (when
an enrollment row is found) or repairs exactly the missing enrollment. -/
theorem postPaymentChecks_cases (db : DB) (u c now : Nat) (co : Course)
    (hc : findCourseById db c = some co) :
    ∃ db2, postPaymentChecks db u c now = some db2 ∧
      (((findEnrollment db u c).isSome ∧ db2 = db) ∨
       (findEnrollment db u c = none ∧ db2 = enrollStudent db c u now)) := by
  unfold postPaymentChecks verifyLectureAccess
  rw [hc]
  cases hen : findEnrollment db u c with
  | some e =>
    refine ⟨db, ?_, Or.inl ⟨rfl, rfl⟩⟩
    simp only [hen, Option.isSome_some, Bool.and_true, Option.isNone_some]
    split
    · rfl
    · rw [if_neg (by simp)]
  | none =>
    refine ⟨enrollStudent db c u now, ?_, Or.inr ⟨rfl, rfl⟩⟩
    simp only [hen, Option.isSome_none, Bool.and_false, Option.isNone_none]
    rw [if_neg (by simp), if_pos trivial]

theorem unlockCourseLectures_courses (db : DB) (c u : Nat) :
    (unlockCourseLectures db c u).courses = db.courses := by
  unfold unlockCourseLectures; exact unlockFold_courses _ _ _ _

theorem unlockCourseLectures_lectures (db : DB) (c u : Nat) :
    (unlockCourseLectures db c u).lectures = db.lectures := by
  unfold unlockCourseLectures; exact unlockFold_lectures _ _ _ _

theorem unlockCourseLectures_orders (db : DB) (c u : Nat) :
    (unlockCourseLectures db c u).orders = db.orders := by
  unfold unlockCourseLectures; exact unlockFold_orders _ _ _ _

theorem unlockCourseLectures_enrollments (db : DB) (c u : Nat) :
    (unlockCourseLectures db c u).enrollments = db.enrollments := by
  unfold unlockCourseLectures; exact unlockFold_enrollments _ _ _ _

theorem paidFlowDB_courses (db : DB) (vd : VerifyData) (now : Nat) (o0 : Order) :
    (paidFlowDB db vd now o0).courses = db.courses := by
  unfold paidFlowDB
  rw [unlockCourseLectures_courses, createOrUpdateEnrollment_courses]

theorem paidFlowDB_lectures (db : DB) (vd : VerifyData) (now : Nat) (o0 : Order) :
    (paidFlowDB db vd now o0).lectures = db.lectures := by
  unfold paidFlowDB
  rw [unlockCourseLectures_lectures, createOrUpdateEnrollment_lectures]

theorem paidFlowDB_orders (db : DB) (vd : VerifyData) (now : Nat) (o0 : Order) :
    (paidFlowDB db vd now o0).orders = db.orders.map
      (fun x => if x.razorpayOrderId == vd.razorpayOrderId then applyPaymentData (pdOf vd now) x else x) := by
  unfold paidFlowDB
  rw [unlockCourseLectures_orders, createOrUpdateEnrollment_orders]

/-- The `verifyPayment` run on the paid branch: returns success with the
order's id, and its final state is the paid-flow state with at most a
repaired enrollment on top. -/
theorem verifyPayment_paid_run (db : DB) (vd : VerifyData) (now : Nat) (co : Course) (o0 : Order)
    (hc : findCourseById db vd.courseId = some co)
    (ho : findByRazorpayOrderId db vd.razorpayOrderId = some o0) :
    ∃ db2, verifyPayment db GatewayOrderStatus.paid vd now = VPResult.ok db2 ⟨true, some o0.id⟩ ∧
      (((findEnrollment (paidFlowDB db vd now o0) vd.userId vd.courseId).isSome ∧
          db2 = paidFlowDB db vd now o0) ∨
        (findEnrollment (paidFlowDB db vd now o0) vd.userId vd.courseId = none ∧
          db2 = enrollStudent (paidFlowDB db vd now o0) vd.courseId vd.userId now)) := by
  have hcF : findCourseById (paidFlowDB db vd now o0) vd.courseId = some co := by
    rw [findCourseById_eq_of_courses (paidFlowDB_courses db vd now o0) vd.courseId, hc]
  obtain ⟨db2, hpc, hcases⟩ :=
    postPaymentChecks_cases (paidFlowDB db vd now o0) vd.userId vd.courseId now co hcF
  refine ⟨db2, ?_, hcases⟩
  unfold verifyPayment
  rw [hc, ho, updatePaymentStatus_eq db vd.razorpayOrderId now (pdOf vd now) o0 ho rfl]
  show (match postPaymentChecks (paidFlowDB db vd now o0) vd.userId vd.courseId now with
    | none => VPResult.err "Failed to verify lecture access" (paidFlowDB db vd now o0)
    | some db2 => VPResult.ok db2 ⟨true, some (applyPaymentData (pdOf vd now) o0).id⟩) =
    VPResult.ok db2 ⟨true, some o0.id⟩
  rw [hpc]
  rfl

/-! ### Congruence and preservation lemmas -/

theorem hasKey_of_progress_eq {db1 db2 : DB} (h : db1.progress = db2.progress) {u lid : Nat}
    (hk : hasKey db2 u lid) : hasKey db1 u lid := by
  unfold hasKey; rw [h]; exact hk

theorem allKeyUnlocked_of_progress_eq {db1 db2 : DB} (h : db1.progress = db2.progress)
    {u lid : Nat} (hk : allKeyUnlocked db2 u lid) : allKeyUnlocked db1 u lid := by
  unfold allKeyUnlocked; rw [h]; exact hk

theorem unlockedRowExists_of_progress_eq {db1 db2 : DB} (h : db1.progress = db2.progress)
    {u lid : Nat} (hk : unlockedRowExists db2 u lid) : unlockedRowExists db1 u lid := by
  unfold unlockedRowExists; rw [h]; exact hk

theorem completedRowExists_of_progress_eq {db1 db2 : DB} (h : db1.progress = db2.progress)
    {u lid : Nat} (hk : completedRowExists db2 u lid) : completedRowExists db1 u lid := by
  unfold completedRowExists; rw [h]; exact hk

theorem I1_of_progress_eq {db1 db2 : DB} (h : db1.progress = db2.progress)
    (hk : I1 db2) : I1 db1 := by
  unfold I1; rw [h]; exact hk

theorem hasEnrKey_of_enrollments_eq {db1 db2 : DB} (h : db1.enrollments = db2.enrollments)
    {u c : Nat} (hk : hasEnrKey db2 u c) : hasEnrKey db1 u c := by
  unfold hasEnrKey; rw [h]; exact hk

theorem uniqueEnrollmentKeys_of_eq {db1 db2 : DB} (h : db1.enrollments = db2.enrollments)
    (hk : uniqueEnrollmentKeys db2) : uniqueEnrollmentKeys db1 := by
  unfold uniqueEnrollmentKeys; rw [h]; exact hk

theorem enrollmentsFor_eq_of_enrollments {db1 db2 : DB} (h : db1.enrollments = db2.enrollments)
    (u c : Nat) : enrollmentsFor db1 u c = enrollmentsFor db2 u c := by
  unfold enrollmentsFor; rw [h]

theorem ordersWithRid_eq_of_orders {db1 db2 : DB} (h : db1.orders = db2.orders)
    (rid : Nat) : ordersWithRid db1 rid = ordersWithRid db2 rid := by
  unfold ordersWithRid; rw [h]

theorem uniqueEnrollmentKeys_createOrUpdateEnrollment {db : DB} (u c oid now : Nat)
    (h : uniqueEnrollmentKeys db) :
    uniqueEnrollmentKeys (createOrUpdateEnrollment db u c oid now) := by
  unfold uniqueEnrollmentKeys at h ⊢
  unfold createOrUpdateEnrollment
  split
  · simp only
    rw [List.pairwise_map]
    refine h.imp_of_mem ?_
    intro e f _ _ hef
    by_cases hke : (e.userId == u && e.courseId == c) = true <;>
      by_cases hkf : (f.userId == u && f.courseId == c) = true <;>
      simp only [hke, hkf, if_pos, if_neg, ite_true, ite_false] <;>
      exact hef
  · rename_i hany
    simp only
    rw [List.pairwise_append]
    refine ⟨h, List.pairwise_singleton _ _, ?_⟩
    intro e he f hf
    simp only [List.mem_singleton] at hf
    subst hf
    intro h1 h2
    exact hany (by
      simp only [List.any_eq_true, Bool.and_eq_true, beq_iff_eq]
      exact ⟨e, he, by simpa using h1, by simpa using h2⟩)

theorem uniqueEnrollmentKeys_enrollStudent {db : DB} (c u now : Nat)
    (h : uniqueEnrollmentKeys db) :
    uniqueEnrollmentKeys (enrollStudent db c u now) := by
  unfold uniqueEnrollmentKeys at h ⊢
  unfold enrollStudent
  split
  · simp only
    rw [List.pairwise_map]
    refine h.imp_of_mem ?_
    intro e f _ _ hef
    by_cases hke : (e.userId == u && e.courseId == c) = true <;>
      by_cases hkf : (f.userId == u && f.courseId == c) = true <;>
      simp only [hke, hkf, if_pos, if_neg, ite_true, ite_false] <;>
      exact hef
  · rename_i hany
    simp only
    rw [List.pairwise_append]
    refine ⟨h, List.pairwise_singleton _ _, ?_⟩
    intro e he f hf
    simp only [List.mem_singleton] at hf
    subst hf
    intro h1 h2
    exact hany (by
      simp only [List.any_eq_true, Bool.and_eq_true, beq_iff_eq]
      exact ⟨e, he, by simpa using h1, by simpa using h2⟩)

theorem filter_enrKey_length_one {u c : Nat} :
    ∀ {l : List Enrollment},
      l.Pairwise (fun e f => e.userId = f.userId → e.courseId = f.courseId → False) →
      ∀ {w : Enrollment}, w ∈ l → w.userId = u → w.courseId = c →
      (l.filter (fun e => e.userId == u && e.courseId == c)).length = 1 := by
  intro l
  induction l with
  | nil => intro _ w hw; cases hw
  | cons a t ih =>
    intro huniq w hw hw1 hw2
    rcases List.pairwise_cons.1 huniq with ⟨ha, ht⟩
    rcases List.mem_cons.1 hw with hwa | hwt
    · rw [← hwa] at ha ⊢
      rw [List.filter_cons_of_pos (by simp [hw1, hw2])]
      have ht0 : t.filter (fun e => e.userId == u && e.courseId == c) = [] := by
        rw [List.filter_eq_nil_iff]
        intro x hx
        simp only [Bool.and_eq_true, beq_iff_eq, not_and]
        intro h1 h2
        exact absurd trivial (fun _ => ha x hx (hw1.trans h1.symm) (hw2.trans h2.symm))
      rw [ht0]
      rfl
    · rw [List.filter_cons_of_neg ?_]
      · exact ih ht hwt hw1 hw2
      · simp only [Bool.and_eq_true, beq_iff_eq, not_and]
        intro h1 h2
        exact absurd trivial (fun _ => ha w hwt (h1.trans hw1.symm) (h2.trans hw2.symm))

/-- With the unique constraint, an existing key yields exactly one row. -/
theorem enrollmentsFor_length_one {db : DB} {u c : Nat}
    (huniq : uniqueEnrollmentKeys db) (hk : hasEnrKey db u c) :
    (enrollmentsFor db u c).length = 1 := by
  obtain ⟨w, hw, hw1, hw2⟩ := hk
  exact filter_enrKey_length_one huniq hw hw1 hw2

/-- Re-running the unlock pass when every lecture already has an unlocked
row is the identity. -/
theorem unlockCourseLectures_id {db : DB} {c u : Nat}
    (h : ∀ l ∈ lecturesOf db c, hasKey db u l.id ∧ allKeyUnlocked db u l.id) :
    unlockCourseLectures db c u = db := by
  unfold unlockCourseLectures
  exact unlockFold_id (lecturesOf db c) db u c h

theorem paidFlowDB_enrollments_eq (db : DB) (vd : VerifyData) (now : Nat) (o0 : Order) :
    (paidFlowDB db vd now o0).enrollments =
      (createOrUpdateEnrollment
        { db with orders := (db.orders.map
            (fun x => if x.razorpayOrderId == vd.razorpayOrderId then applyPaymentData (pdOf vd now) x else x)) }
        o0.studentId o0.courseId o0.id now).enrollments := by
  unfold paidFlowDB
  rw [unlockCourseLectures_enrollments]

theorem paidFlowDB_hasEnrKey (db : DB) (vd : VerifyData) (now : Nat) (o0 : Order) :
    hasEnrKey (paidFlowDB db vd now o0) o0.studentId o0.courseId :=
  hasEnrKey_of_enrollments_eq (paidFlowDB_enrollments_eq db vd now o0)
    (hasEnrKey_createOrUpdateEnrollment _ _ _ _ _)

theorem paidFlowDB_enr_orderId (db : DB) (vd : VerifyData) (now : Nat) (o0 : Order) :
    ∀ e ∈ (paidFlowDB db vd now o0).enrollments,
      e.userId = o0.studentId → e.courseId = o0.courseId → e.orderId = some o0.id := by
  intro e he
  rw [paidFlowDB_enrollments_eq db vd now o0] at he
  exact createOrUpdateEnrollment_sets _ _ _ _ e he

theorem paidFlowDB_uniqueEnrollmentKeys (db : DB) (vd : VerifyData) (now : Nat) (o0 : Order)
    (h : uniqueEnrollmentKeys db) :
    uniqueEnrollmentKeys (paidFlowDB db vd now o0) :=
  uniqueEnrollmentKeys_of_eq (paidFlowDB_enrollments_eq db vd now o0)
    (uniqueEnrollmentKeys_createOrUpdateEnrollment _ _ _ _ h)

/-- After the paid flow, every lecture of the order's course has an
unlocked row for the order's student. -/
theorem paidFlowDB_unlocked (db : DB) (vd : VerifyData) (now : Nat) (o0 : Order) :
    ∀ l ∈ lecturesOf db o0.courseId,
      hasKey (paidFlowDB db vd now o0) o0.studentId l.id ∧
      allKeyUnlocked (paidFlowDB db vd now o0) o0.studentId l.id := by
  intro l hl
  unfold paidFlowDB unlockCourseLectures
  have hle : lecturesOf
      (createOrUpdateEnrollment
        { db with orders := (db.orders.map
            (fun x => if x.razorpayOrderId == vd.razorpayOrderId then applyPaymentData (pdOf vd now) x else x)) }
        o0.studentId o0.courseId o0.id now) o0.courseId = lecturesOf db o0.courseId := by
    rw [lecturesOf_eq_of_lectures (createOrUpdateEnrollment_lectures _ _ _ _ _)]
    rfl
  rw [hle]
  constructor
  · exact (unlockFold_hasKey _ _ _ _ _ _).2 (Or.inr ⟨rfl, List.mem_map.2 ⟨l, hl, rfl⟩⟩)
  · exact unlockFold_allKeyUnlocked _ _ _ _ l hl

theorem orderMapFn_pred (rid rid' : Nat) (pd : PaymentData) (x : Order) :
    ((if x.razorpayOrderId == rid then applyPaymentData pd x else x).razorpayOrderId == rid') =
      (x.razorpayOrderId == rid') := by
  by_cases hx : (x.razorpayOrderId == rid) = true
  · rw [if_pos hx, applyPaymentData_razorpayOrderId]
  · rw [if_neg hx]

theorem paidFlowDB_ordersWithRid_length (db : DB) (vd : VerifyData) (now : Nat) (o0 : Order)
    (rid' : Nat) :
    (ordersWithRid (paidFlowDB db vd now o0) rid').length = (ordersWithRid db rid').length := by
  unfold ordersWithRid
  rw [paidFlowDB_orders db vd now o0]
  exact length_filter_map_same_pred _ _ (orderMapFn_pred vd.razorpayOrderId rid' (pdOf vd now))
    db.orders

theorem findByRazorpayOrderId_paidFlowDB (db : DB) (vd : VerifyData) (now : Nat) (o0 : Order)
    (ho : findByRazorpayOrderId db vd.razorpayOrderId = some o0) :
    findByRazorpayOrderId (paidFlowDB db vd now o0) vd.razorpayOrderId =
      some (applyPaymentData (pdOf vd now) o0) := by
  unfold findByRazorpayOrderId
  rw [show (paidFlowDB db vd now o0).orders = db.orders.map
      (fun x => if x.razorpayOrderId == vd.razorpayOrderId then applyPaymentData (pdOf vd now) x else x)
    from paidFlowDB_orders db vd now o0]
  rw [find?_map_same_pred _ _ (orderMapFn_pred vd.razorpayOrderId vd.razorpayOrderId (pdOf vd now))]
  unfold findByRazorpayOrderId at ho
  rw [ho]
  have hp := List.find?_some ho
  simp only [Option.map_some']
  rw [if_pos hp]

/-! ## Claim theorems -/

/-- C7: for every confirmation call where the gateway reports the order
in any status other than paid, `verifyPayment` returns a negative result
(`success = false`) without raising an error and without mutating any
state: the database (orders, enrollments, progress) is returned
unchanged. -/
theorem C7_nonpaid_returns_false_without_mutation (db : DB) (gs : GatewayOrderStatus)
    (vd : VerifyData) (now : Nat) (h : gs ≠ GatewayOrderStatus.paid) :
    verifyPayment db gs vd now = VPResult.ok db ⟨false, none⟩ := by
  cases gs with
  | paid => exact absurd rfl h
  | created => rfl
  | attempted => rfl

theorem C7_witness :
    GatewayOrderStatus.created ≠ GatewayOrderStatus.paid ∧
      verifyPayment exDB8 GatewayOrderStatus.created exVD 20 = VPResult.ok exDB8 ⟨false, none⟩ :=
  ⟨by decide, C7_nonpaid_returns_false_without_mutation exDB8 GatewayOrderStatus.created exVD 20
    (by decide)⟩

/-- C10: when the gateway reports the order paid but the courseId of the
verification request matches no course, `verifyPayment` raises the
'Course not found' error before any write: the error carries the input
database unchanged, so the order is never marked paid and no enrollment
or progress rows are created. -/
theorem C10_missing_course_errors_before_write (db : DB) (vd : VerifyData) (now : Nat)
    (h : findCourseById db vd.courseId = none) :
    verifyPayment db GatewayOrderStatus.paid vd now = VPResult.err "Course not found" db := by
  unfold verifyPayment
  rw [h]

theorem C10_witness :
    findCourseById exDB8 ({ exVD with courseId := 42 } : VerifyData).courseId = none ∧
      verifyPayment exDB8 GatewayOrderStatus.paid { exVD with courseId := 42 } 20 =
        VPResult.err "Course not found" exDB8 :=
  ⟨by decide, C10_missing_course_errors_before_write exDB8 { exVD with courseId := 42 } 20
    (by decide)⟩

/-- C8 counterexample: a confirmation call whose gateway order id has no
matching Order row, with the gateway reporting the order as merely
created, returns a plain `success = false` response — it does NOT fail
with an order-not-found error (and indeed writes nothing). -/
theorem C8_counterexample :
    findByRazorpayOrderId exDB8 exVD.razorpayOrderId = none ∧
      verifyPayment exDB8 GatewayOrderStatus.created exVD 20 =
        VPResult.ok exDB8 ⟨false, none⟩ := by
  constructor
  · rfl
  · rfl

/-- C8 (amended): only when the gateway reports the order paid (and the
courseId resolves to an existing course) does a confirmation with no
matching Order row fail with the order-not-found error; the error carries
the input database unchanged, so no rows are created.  When the gateway
reports any non-paid status the call instead returns `success = false`
without error and without writes. -/
theorem C8_amended_order_not_found (db : DB) (vd : VerifyData) (now : Nat) (co : Course)
    (hc : findCourseById db vd.courseId = some co)
    (ho : findByRazorpayOrderId db vd.razorpayOrderId = none) :
    verifyPayment db GatewayOrderStatus.paid vd now =
      VPResult.err "Order not found in database" db := by
  unfold verifyPayment
  rw [hc, ho]

theorem C8_amended_witness :
    findCourseById exDB8 exVD.courseId = some { id := 1, price := some 100 } ∧
      findByRazorpayOrderId exDB8 exVD.razorpayOrderId = none ∧
      verifyPayment exDB8 GatewayOrderStatus.paid exVD 20 =
        VPResult.err "Order not found in database" exDB8 :=
  ⟨by decide, by decide,
    C8_amended_order_not_found exDB8 exVD 20 { id := 1, price := some 100 } (by decide) (by decide)⟩

/-- C1 counterexample: `completeLecture` called for a (student, lecture)
pair with no existing progress row creates a row with
`isCompleted = true` and `isUnlocked = false`, violating invariant I1. -/
theorem C1_counterexample :
    exDB1.progress = [] ∧ violatesI1B (completeLecture exDB1 1 1 1 5) = true := by
  constructor
  · rfl
  · rfl

/-- C1 (amended): I1 (`isCompleted = true` implies `isUnlocked = true`)
is preserved by `unlockCourseLectures` and by payment confirmation, and
by `completeLecture` provided the completed pair already has an unlocked
progress row; `completeLecture` on a pair with no existing row instead
creates a completed-but-locked row, so I1 is not an unconditional
invariant. -/
theorem C1_amended_I1_preservation (db : DB) (hI : I1 db) :
    (∀ c u, I1 (unlockCourseLectures db c u)) ∧
    (∀ gs vd now db' r, verifyPayment db gs vd now = VPResult.ok db' r → I1 db') ∧
    (∀ u lid c now, uniqueProgressKeys db → unlockedRowExists db u lid →
      I1 (completeLecture db u lid c now)) := by
  refine ⟨?_, ?_, ?_⟩
  · intro c u
    unfold unlockCourseLectures
    exact unlockFold_I1 _ _ _ _ hI
  · intro gs vd now db' r hok
    cases gs with
    | created => cases hok; exact hI
    | attempted => cases hok; exact hI
    | paid =>
      unfold verifyPayment at hok
      cases hc : findCourseById db vd.courseId with
      | none => rw [hc] at hok; cases hok
      | some co =>
        rw [hc] at hok
        cases ho : findByRazorpayOrderId db vd.razorpayOrderId with
        | none => rw [ho] at hok; cases hok
        | some o0 =>
          rw [ho] at hok
          obtain ⟨db2, heq, hcases⟩ := verifyPayment_paid_run db vd now co o0 hc ho
          have hIpf : I1 (paidFlowDB db vd now o0) := by
            unfold paidFlowDB unlockCourseLectures
            refine unlockFold_I1 _ _ _ _ ?_
            refine I1_of_progress_eq ?_ hI
            rw [createOrUpdateEnrollment_progress]
          have hok2 : VPResult.ok db2 ⟨true, some o0.id⟩ = VPResult.ok db' r := by
            unfold verifyPayment at heq
            rw [hc, ho] at heq
            rw [← heq, hok]
          have hdb : db2 = db' := by injection hok2
          rcases hcases with ⟨_, h2⟩ | ⟨_, h2⟩
          · rw [← hdb, h2]; exact hIpf
          · rw [← hdb, h2]
            exact I1_of_progress_eq (enrollStudent_progress _ _ _ _) hIpf
  · intro u lid c now huniq hrow
    rcases completeLecture_structure db u lid c now with h | ⟨i, next, _, _, _, h⟩
    · rw [h]; exact I1_upsert_complete u lid c now huniq hrow hI
    · rw [h]
      exact I1_upsert_safe u next.id c (unlockOnly true) rfl (by simp [unlockOnly])
        (I1_upsert_complete u lid c now huniq hrow hI)

theorem C1_amended_witness :
    I1 exDB2paid ∧ uniqueProgressKeys exDB2paid ∧ unlockedRowExists exDB2paid 1 1 ∧
      I1 (completeLecture exDB2paid 1 1 1 30) :=
  ⟨by unfold I1; decide, by unfold uniqueProgressKeys; decide,
    by unfold unlockedRowExists; decide,
    (C1_amended_I1_preservation exDB2paid (by unfold I1; decide)).2.2 1 1 1 30
      (by unfold uniqueProgressKeys; decide) (by unfold unlockedRowExists; decide)⟩

/-- C9 counterexample: `reorderLectures` accepts the assignment
[(lecture 1, position 2)] on a course whose lectures sit at positions
1 and 2, and the completed reorder leaves two lectures of the course
sharing position 2. -/
theorem C9_counterexample :
    (lecturesOf exDB2 1).map Lecture.position = [1, 2] ∧
      (reorderLectures exDB2 1 [(1, 2)]).map
        (fun db => (lecturesOf db 1).map Lecture.position) = some [2, 2] := by
  constructor
  · rfl
  · rfl

/-- C2 counterexample: after a paid confirmation both lectures are
unlocked, yet a subsequent `initializeLectureProgress` for the same
student and course writes the computed `shouldUnlock` over lecture 2's
row (its predecessor is not completed) and regresses `isUnlocked`
from true back to false. -/
theorem C2_counterexample :
    unlockedRowB exDB2paid 1 2 = true ∧
      (initializeLectureProgress exDB2paid 1 1).map (fun db => unlockedRowB db 1 2) =
        some false := by
  constructor
  · rfl
  · rfl

/-- The initialization loop never writes `isCompleted`, so completed rows
survive it. -/
theorem initUnlockLoop_completedRowExists (uI cI : Nat) (en : Bool) :
    ∀ (ls : List Lecture) (db : DB) (first : Bool) (prev : Option Lecture) {u' lid' : Nat},
      completedRowExists db u' lid' →
      completedRowExists (initUnlockLoop uI cI en db first prev ls) u' lid' := by
  intro ls
  induction ls with
  | nil => intro db first prev u' lid' h; exact h
  | cons a t ih =>
    intro db first prev u' lid' h
    exact ih _ false (some a) (completedRowExists_upsert uI a.id cI _ (by simp [unlockOnly]) h)

/-- C2 (amended): `isUnlocked`, once true, survives `completeLecture`,
`unlockCourseLectures` and every outcome of `verifyPayment`; and,
independently, `isCompleted`, once true, survives those three and
additionally `initializeLectureProgress`.  Each flag's monotonicity
needs only that flag to hold on the row: an unlocked-but-uncompleted
row keeps `isUnlocked`, and a completed-but-locked row keeps
`isCompleted`.  (The original claim fails only because
`initializeLectureProgress` overwrites `isUnlocked` with the computed
`shouldUnlock`, which can regress it to false.) -/
theorem C2_amended_monotonicity (db : DB) (u lid : Nat) :
    (unlockedRowExists db u lid →
      (∀ u' lid' c' now', unlockedRowExists (completeLecture db u' lid' c' now') u lid) ∧
      (∀ c' u', unlockedRowExists (unlockCourseLectures db c' u') u lid) ∧
      (∀ gs vd now', unlockedRowExists (vpDB (verifyPayment db gs vd now')) u lid)) ∧
    (completedRowExists db u lid →
      (∀ u' lid' c' now', completedRowExists (completeLecture db u' lid' c' now') u lid) ∧
      (∀ c' u', completedRowExists (unlockCourseLectures db c' u') u lid) ∧
      (∀ gs vd now', completedRowExists (vpDB (verifyPayment db gs vd now')) u lid) ∧
      (∀ u' c' db', initializeLectureProgress db u' c' = some db' →
        completedRowExists db' u lid)) := by
  constructor
  · intro hun
    refine ⟨?_, ?_, ?_⟩
    · intro u' lid' c' now'
      rcases completeLecture_structure db u' lid' c' now' with h | ⟨i, next, _, _, _, h⟩ <;> rw [h]
      · exact unlockedRowExists_upsert u' lid' c' _ (by simp [completionData]) hun
      · exact unlockedRowExists_upsert u' next.id c' _ (by simp [unlockOnly])
          (unlockedRowExists_upsert u' lid' c' _ (by simp [completionData]) hun)
    · intro c' u'
      unfold unlockCourseLectures
      exact unlockFold_unlockedRowExists _ _ _ _ hun
    · intro gs vd now'
      cases gs with
      | created => exact hun
      | attempted => exact hun
      | paid =>
        have hpf : ∀ o0 : Order, unlockedRowExists (paidFlowDB db vd now' o0) u lid := by
          intro o0
          unfold paidFlowDB unlockCourseLectures
          refine unlockFold_unlockedRowExists _ _ _ _ ?_
          refine unlockedRowExists_of_progress_eq ?_ hun
          rw [createOrUpdateEnrollment_progress]
        cases hc : findCourseById db vd.courseId with
        | none =>
          unfold verifyPayment
          rw [hc]
          exact hun
        | some co =>
          cases ho : findByRazorpayOrderId db vd.razorpayOrderId with
          | none =>
            unfold verifyPayment
            rw [hc, ho]
            exact hun
          | some o0 =>
            obtain ⟨db2, heq, hcases⟩ := verifyPayment_paid_run db vd now' co o0 hc ho
            rw [heq]
            rcases hcases with ⟨_, h2⟩ | ⟨_, h2⟩
            · rw [show vpDB (VPResult.ok db2 ⟨true, some o0.id⟩) = db2 from rfl, h2]
              exact hpf o0
            · rw [show vpDB (VPResult.ok db2 ⟨true, some o0.id⟩) = db2 from rfl, h2]
              exact unlockedRowExists_of_progress_eq (enrollStudent_progress _ _ _ _) (hpf o0)
  · intro hco
    refine ⟨?_, ?_, ?_, ?_⟩
    · intro u' lid' c' now'
      rcases completeLecture_structure db u' lid' c' now' with h | ⟨i, next, _, _, _, h⟩ <;> rw [h]
      · exact completedRowExists_upsert u' lid' c' _ (by simp [completionData]) hco
      · exact completedRowExists_upsert u' next.id c' _ (by simp [unlockOnly])
          (completedRowExists_upsert u' lid' c' _ (by simp [completionData]) hco)
    · intro c' u'
      unfold unlockCourseLectures
      exact unlockFold_completedRowExists _ _ _ _ hco
    · intro gs vd now'
      cases gs with
      | created => exact hco
      | attempted => exact hco
      | paid =>
        have hpf : ∀ o0 : Order, completedRowExists (paidFlowDB db vd now' o0) u lid := by
          intro o0
          unfold paidFlowDB unlockCourseLectures
          refine unlockFold_completedRowExists _ _ _ _ ?_
          refine completedRowExists_of_progress_eq ?_ hco
          rw [createOrUpdateEnrollment_progress]
        cases hc : findCourseById db vd.courseId with
        | none =>
          unfold verifyPayment
          rw [hc]
          exact hco
        | some co =>
          cases ho : findByRazorpayOrderId db vd.razorpayOrderId with
          | none =>
            unfold verifyPayment
            rw [hc, ho]
            exact hco
          | some o0 =>
            obtain ⟨db2, heq, hcases⟩ := verifyPayment_paid_run db vd now' co o0 hc ho
            rw [heq]
            rcases hcases with ⟨_, h2⟩ | ⟨_, h2⟩
            · rw [show vpDB (VPResult.ok db2 ⟨true, some o0.id⟩) = db2 from rfl, h2]
              exact hpf o0
            · rw [show vpDB (VPResult.ok db2 ⟨true, some o0.id⟩) = db2 from rfl, h2]
              exact completedRowExists_of_progress_eq (enrollStudent_progress _ _ _ _) (hpf o0)
    · intro u' c' db' hinit
      unfold initializeLectureProgress at hinit
      cases hc : findCourseById db c' with
      | none => rw [hc] at hinit; cases hinit
      | some co =>
        rw [hc] at hinit
        have hdb' : db' = initUnlockLoop u' c' (findEnrollment db u' c').isSome db true none
            (sortLectures (lecturesOf db c')) := by
          injection hinit with h
          rw [← h]
        rw [hdb']
        exact initUnlockLoop_completedRowExists u' c' _ _ db true none hco

theorem C2_amended_witness :
    (unlockedRowExists exDB2paid 1 2 ∧ ¬ completedRowExists exDB2paid 1 2 ∧
      unlockedRowExists (completeLecture exDB2paid 1 1 1 30) 1 2) ∧
    (completedRowExists (completeLecture exDB2paid 1 1 1 30) 1 1 ∧
      completedRowExists
        (unlockCourseLectures (completeLecture exDB2paid 1 1 1 30) 1 1) 1 1) :=
  ⟨⟨by unfold unlockedRowExists; decide, by unfold completedRowExists; decide,
      ((C2_amended_monotonicity exDB2paid 1 2).1
        (by unfold unlockedRowExists; decide)).1 1 1 1 30⟩,
    ⟨by unfold completedRowExists; decide,
      ((C2_amended_monotonicity (completeLecture exDB2paid 1 1 1 30) 1 1).2
        (by unfold completedRowExists; decide)).2.1 1 1⟩⟩

/-- C5 counterexample: a student holding only the provisional Enrollment
row created at order creation (no order is paid) completes free lecture 1
and the paid lecture 2 gets `isUnlocked = true` anyway. -/
theorem C5_counterexample :
    exDB5ordered.orders.all (fun o => !o.isPaid) = true ∧
      (findEnrollment exDB5ordered 1 1).isSome = true ∧
      unlockedRowB (completeLecture exDB5ordered 1 1 1 15) 1 2 = true := by
  refine ⟨?_, ?_, ?_⟩ <;> rfl

/-- C5 (amended): `completeLecture` unlocks the lecture at the next
position whenever ANY Enrollment row exists for the (student, course)
pair — paid or not, including the provisional row written at order
creation; only when no enrollment row exists at all does the call write
nothing beyond the completion upsert itself. -/
theorem C5_amended_any_enrollment_row_gates_unlock (db : DB) (u lid c now : Nat) :
    (findEnrollment db u c = none →
      completeLecture db u lid c now = upsertLectureProgress db u lid c (completionData now)) ∧
    (∀ co i next,
      findCourseById db c = some co →
      (sortLectures (lecturesOf db c)).findIdx? (fun l => l.id == lid) = some i →
      (sortLectures (lecturesOf db c)).get? (i + 1) = some next →
      (findEnrollment db u c).isSome →
      unlockedRowExists (completeLecture db u lid c now) u next.id) := by
  constructor
  · intro hen
    rcases completeLecture_structure db u lid c now with h | ⟨_, _, _, _, hs, _⟩
    · exact h
    · rw [hen] at hs; cases hs
  · intro co i next hc hidx hnext hen
    exact completeLecture_unlocks_next db u lid c now co i next hc hidx hnext hen

theorem C5_amended_witness :
    findCourseById exDB5ordered 1 = some { id := 1, price := some 100 } ∧
      (sortLectures (lecturesOf exDB5ordered 1)).findIdx? (fun l => l.id == 1) = some 0 ∧
      (sortLectures (lecturesOf exDB5ordered 1)).get? 1 =
        some { id := 2, courseId := 1, position := 2, isFree := false } ∧
      (findEnrollment exDB5ordered 1 1).isSome = true ∧
      unlockedRowExists (completeLecture exDB5ordered 1 1 1 15) 1 2 :=
  ⟨by decide, by decide, by decide, by decide,
    (C5_amended_any_enrollment_row_gates_unlock exDB5ordered 1 1 1 15).2
      { id := 1, price := some 100 } 0 { id := 2, courseId := 1, position := 2, isFree := false }
      (by decide) (by decide) (by decide) (by decide)⟩

/-- C6 counterexample: a run of `verifyPayment` (order of student 2,
verification request for user 1) in which the re-read state falls short
on both counts — enrollment missing and 0 of 1 lectures unlocked for the
requesting user — yet the operation heals only the enrollment: it
succeeds, the enrollment row appears, and the unlocked-lecture count for
the user stays 0, because the unlock-all step is never re-invoked. -/
theorem C6_counterexample :
    findEnrollment (paidFlowDB exDB6 exVD 20 exOrder6) 1 1 = none ∧
      (rowsFor (paidFlowDB exDB6 exVD 20 exOrder6) 1 1).length = 0 ∧
      (lecturesOf exDB6 1).length = 1 ∧
      verifyPayment exDB6 GatewayOrderStatus.paid exVD 20 =
        VPResult.ok exDB6after ⟨true, some 50⟩ ∧
      (findEnrollment exDB6after 1 1).isSome = true ∧
      (rowsFor exDB6after 1 1).length = 0 := by
  refine ⟨?_, ?_, ?_, ?_, ?_, ?_⟩ <;> rfl

/-- C6 (amended): the post-write verification step self-heals only the
missing-enrollment gap — when the re-read finds no enrollment row it
creates one via `enrollStudent` — while a shortfall in the unlocked
lecture count is only logged: the step never touches progress rows and
never re-invokes the unlock-all pass. -/
theorem C6_amended_repair_only_enrollment (db : DB) (u c now : Nat) (co : Course)
    (hc : findCourseById db c = some co) :
    ∃ db2, postPaymentChecks db u c now = some db2 ∧
      db2.progress = db.progress ∧
      ((findEnrollment db u c).isSome → db2 = db) ∧
      (findEnrollment db u c = none →
        db2 = enrollStudent db c u now ∧ (findEnrollment db2 u c).isSome) := by
  obtain ⟨db2, hpc, hcases⟩ := postPaymentChecks_cases db u c now co hc
  refine ⟨db2, hpc, ?_, ?_, ?_⟩
  · rcases hcases with ⟨_, h2⟩ | ⟨_, h2⟩
    · rw [h2]
    · rw [h2, enrollStudent_progress]
  · intro hs
    rcases hcases with ⟨_, h2⟩ | ⟨hn, _⟩
    · exact h2
    · rw [hn] at hs; cases hs
  · intro hn
    rcases hcases with ⟨hs, _⟩ | ⟨_, h2⟩
    · rw [hn] at hs; cases hs
    · refine ⟨h2, ?_⟩
      rw [h2]
      exact findEnrollment_isSome_iff.2 (hasEnrKey_enrollStudent_self db c u now)

theorem C6_amended_witness :
    findCourseById (paidFlowDB exDB6 exVD 20 exOrder6) 1 = some { id := 1, price := some 100 } ∧
      (∃ db2, postPaymentChecks (paidFlowDB exDB6 exVD 20 exOrder6) 1 1 20 = some db2 ∧
        db2.progress = (paidFlowDB exDB6 exVD 20 exOrder6).progress ∧
        ((findEnrollment (paidFlowDB exDB6 exVD 20 exOrder6) 1 1).isSome →
          db2 = paidFlowDB exDB6 exVD 20 exOrder6) ∧
        (findEnrollment (paidFlowDB exDB6 exVD 20 exOrder6) 1 1 = none →
          db2 = enrollStudent (paidFlowDB exDB6 exVD 20 exOrder6) 1 1 20 ∧
          (findEnrollment db2 1 1).isSome)) :=
  ⟨by decide,
    C6_amended_repair_only_enrollment (paidFlowDB exDB6 exVD 20 exOrder6) 1 1 20
      { id := 1, price := some 100 } (by decide)⟩

/-! ### Reorder machinery for C9 -/

theorem applyAssign_id (c : Nat) (os : List (Nat × Nat)) (l : Lecture) :
    (applyAssign c os l).id = l.id := by
  unfold applyAssign
  induction os generalizing l with
  | nil => rfl
  | cons o t ih =>
    rw [List.foldl_cons]
    refine (ih _).trans ?_
    split <;> rfl

theorem applyAssign_courseId (c : Nat) (os : List (Nat × Nat)) (l : Lecture) :
    (applyAssign c os l).courseId = l.courseId := by
  unfold applyAssign
  induction os generalizing l with
  | nil => rfl
  | cons o t ih =>
    rw [List.foldl_cons]
    refine (ih _).trans ?_
    split <;> rfl

/-- The reorder transaction is the pointwise application of the whole
assignment list to each lecture row. -/
theorem reorder_foldl_eq_map (c : Nat) :
    ∀ (os : List (Nat × Nat)) (ls : List Lecture),
      os.foldl (applyLectureOrder c) ls = ls.map (applyAssign c os) := by
  intro os
  induction os with
  | nil =>
    intro ls
    rw [List.foldl_nil]
    exact ((List.map_congr_left (fun a _ => rfl)).trans (List.map_id ls)).symm
  | cons o t ih =>
    intro ls
    rw [List.foldl_cons, ih (applyLectureOrder c ls o)]
    unfold applyLectureOrder
    rw [List.map_map]
    exact List.map_congr_left (fun l _ => rfl)

theorem applyAssign_of_not_mem (c : Nat) :
    ∀ {os : List (Nat × Nat)} {l : Lecture}, l.id ∉ os.map Prod.fst → applyAssign c os l = l := by
  intro os
  induction os with
  | nil => intro l _; rfl
  | cons o t ih =>
    intro l h
    simp only [List.map_cons, List.mem_cons, not_or] at h
    unfold applyAssign
    rw [List.foldl_cons, if_neg (by
      simp only [Bool.and_eq_true, beq_iff_eq, not_and]
      intro h1 _
      exact h.1 h1)]
    exact ih h.2

/-- Under a duplicate-free assignment, a listed lecture of the course gets
exactly its assigned position. -/
theorem applyAssign_of_mem (c : Nat) :
    ∀ {os : List (Nat × Nat)}, (os.map Prod.fst).Nodup →
      ∀ {l : Lecture} {p : Nat}, (l.id, p) ∈ os → l.courseId = c →
      (applyAssign c os l).position = p := by
  intro os
  induction os with
  | nil => intro _ l p hm; cases hm
  | cons o t ih =>
    intro hn l p hm hc
    rw [List.map_cons, List.nodup_cons] at hn
    rcases List.mem_cons.1 hm with hmo | hmt
    · have h1 : o.1 = l.id := by rw [← hmo]
      have h2 : o.2 = p := by rw [← hmo]
      unfold applyAssign
      rw [List.foldl_cons, if_pos (by simp [h1, hc])]
      have hrest : applyAssign c t { l with position := o.2 } = { l with position := o.2 } := by
        refine applyAssign_of_not_mem c ?_
        show ({ l with position := o.2 } : Lecture).id ∉ t.map Prod.fst
        rw [show ({ l with position := o.2 } : Lecture).id = l.id from rfl, ← h1]
        exact hn.1
      rw [show t.foldl (fun l o => if l.id == o.1 && l.courseId == c
          then { l with position := o.2 } else l) { l with position := o.2 } =
          applyAssign c t { l with position := o.2 } from rfl, hrest, ← h2]
    · have hne : ¬(l.id == o.1 && l.courseId == c) = true := by
        simp only [Bool.and_eq_true, beq_iff_eq, not_and]
        intro h1 _
        exact hn.1 (h1 ▸ List.mem_map.2 ⟨(l.id, p), hmt, rfl⟩)
      unfold applyAssign
      rw [List.foldl_cons, if_neg hne]
      exact ih hn.2 hmt hc

theorem filter_map_same_pred {α : Type} (p : α → Bool) (g : α → α)
    (hg : ∀ a, p (g a) = p a) :
    ∀ l : List α, (l.map g).filter p = (l.filter p).map g := by
  intro l
  induction l with
  | nil => rfl
  | cons a t ih =>
    rw [List.map_cons]
    cases hpa : p a with
    | true =>
      rw [List.filter_cons_of_pos (by rw [hg a]; exact hpa), List.filter_cons_of_pos hpa,
        List.map_cons, ih]
    | false =>
      rw [List.filter_cons_of_neg (by simp [hg a, hpa]), List.filter_cons_of_neg (by simp [hpa])]
      exact ih

/-- C9 (amended): a completed reorder writes exactly the caller-supplied
positions, so when the assignment covers every lecture of the course,
names each lecture once and uses pairwise-distinct positions, no two
lectures of the course share a position afterwards; and `completeLecture`
run on the post-reorder state resolves the next lecture from the
positions as they stand then (the post-reorder sorted order), never from
pre-reorder positions.  (The operation itself accepts arbitrary
assignments, including ones that create duplicates — see the
counterexample.) -/
theorem C9_amended_reorder_positions (db : DB) (c : Nat) (os : List (Nat × Nat)) (db' : DB)
    (hre : reorderLectures db c os = some db')
    (hids : lectureIdsNodup db)
    (hcov : ∀ l ∈ lecturesOf db c, l.id ∈ os.map Prod.fst)
    (hfst : (os.map Prod.fst).Nodup) (hsnd : (os.map Prod.snd).Nodup) :
    (lecturesOf db' c).Pairwise (fun a b => a.position ≠ b.position) ∧
    (∀ u lid now co i next,
      findCourseById db' c = some co →
      (sortLectures (lecturesOf db' c)).findIdx? (fun l => l.id == lid) = some i →
      (sortLectures (lecturesOf db' c)).get? (i + 1) = some next →
      (findEnrollment db' u c).isSome →
      unlockedRowExists (completeLecture db' u lid c now) u next.id) := by
  constructor
  · have hlect : db'.lectures = db.lectures.map (applyAssign c os) := by
      unfold reorderLectures at hre
      split at hre
      · injection hre with h
        rw [← h]
        exact reorder_foldl_eq_map c os db.lectures
      · cases hre
    have hfil : lecturesOf db' c = (lecturesOf db c).map (applyAssign c os) := by
      unfold lecturesOf
      rw [hlect]
      exact filter_map_same_pred (fun l => l.courseId == c) (applyAssign c os)
        (fun l => by simp only []; rw [applyAssign_courseId]) db.lectures
    rw [hfil, List.pairwise_map]
    have hidpw : (lecturesOf db c).Pairwise (fun a b => a.id ≠ b.id) := by
      have := nodup_ids_lecturesOf hids c
      unfold List.Nodup at this
      rw [List.pairwise_map] at this
      exact this
    refine hidpw.imp_of_mem ?_
    intro a b ha hb hne
    obtain ⟨pa, hpa⟩ : ∃ pa, (a.id, pa) ∈ os := by
      have := hcov a ha
      rw [List.mem_map] at this
      obtain ⟨x, hx, hxe⟩ := this
      exact ⟨x.2, by rw [← hxe]; exact hx⟩
    obtain ⟨pb, hpb⟩ : ∃ pb, (b.id, pb) ∈ os := by
      have := hcov b hb
      rw [List.mem_map] at this
      obtain ⟨x, hx, hxe⟩ := this
      exact ⟨x.2, by rw [← hxe]; exact hx⟩
    rw [applyAssign_of_mem c hfst hpa (mem_lecturesOf.1 ha).2,
      applyAssign_of_mem c hfst hpb (mem_lecturesOf.1 hb).2]
    intro hpe
    subst hpe
    exact hne (congrArg Prod.fst (List.inj_on_of_nodup_map hsnd hpa hpb rfl))
  · intro u lid now co i next hc hidx hnext hen
    exact completeLecture_unlocks_next db' u lid c now co i next hc hidx hnext hen

/-- The enroll-then-unlock-everything sequence of the paid branch, seen
through the (student, course) progress rows. -/
theorem unlock_after_enroll_spec (dbM : DB) (uE cE oidE nowE : Nat)
    (huniq : uniqueProgressKeys dbM) (hcons : progressConsistent dbM)
    (hids : lectureIdsNodup dbM) :
    (∀ lid, lid ∈ (rowsFor (unlockCourseLectures (createOrUpdateEnrollment dbM uE cE oidE nowE)
          cE uE) uE cE).map Progress.lectureId ↔
        lid ∈ (lecturesOf dbM cE).map Lecture.id) ∧
    (∀ p ∈ rowsFor (unlockCourseLectures (createOrUpdateEnrollment dbM uE cE oidE nowE) cE uE)
        uE cE, p.isUnlocked = true) ∧
    (rowsFor (unlockCourseLectures (createOrUpdateEnrollment dbM uE cE oidE nowE) cE uE)
        uE cE).length = (lecturesOf dbM cE).length := by
  have h1 : (createOrUpdateEnrollment dbM uE cE oidE nowE).progress = dbM.progress :=
    createOrUpdateEnrollment_progress _ _ _ _ _
  have h2 : (createOrUpdateEnrollment dbM uE cE oidE nowE).lectures = dbM.lectures :=
    createOrUpdateEnrollment_lectures _ _ _ _ _
  have hspec := unlock_rowsFor_spec (createOrUpdateEnrollment dbM uE cE oidE nowE) cE uE
    (uniqueProgressKeys_of_eq h1 huniq) (progressConsistent_of_eq h1 h2 hcons)
    (lectureIdsNodup_of_eq h2 hids)
  rw [lecturesOf_eq_of_lectures h2 cE] at hspec
  exact hspec

/-- C4: after a successful payment confirmation (gateway paid,
`verifyPayment` returns success), the student's progress query for the
course returns exactly one row per lecture of the course, every row with
`isUnlocked = true`, ordered by lecture position ascending. -/
theorem C4_full_unlock_after_payment (db : DB) (vd : VerifyData) (now : Nat) (co : Course)
    (o0 : Order)
    (hc : findCourseById db vd.courseId = some co)
    (ho : findByRazorpayOrderId db vd.razorpayOrderId = some o0)
    (hu : o0.studentId = vd.userId) (hcc : o0.courseId = vd.courseId)
    (huniq : uniqueProgressKeys db) (hcons : progressConsistent db)
    (hids : lectureIdsNodup db) :
    ∃ db2 r, verifyPayment db GatewayOrderStatus.paid vd now = VPResult.ok db2 r ∧
      r.success = true ∧
      (getUserLectureProgress db2 vd.userId vd.courseId).length =
        (lecturesOf db vd.courseId).length ∧
      (∀ pl ∈ getUserLectureProgress db2 vd.userId vd.courseId, pl.1.isUnlocked = true) ∧
      (getUserLectureProgress db2 vd.userId vd.courseId).Pairwise
        (fun x y => x.2.position ≤ y.2.position) ∧
      (∀ l ∈ lecturesOf db vd.courseId,
        ∃ pl ∈ getUserLectureProgress db2 vd.userId vd.courseId, pl.1.lectureId = l.id) := by
  obtain ⟨db2, heq, hcases⟩ := verifyPayment_paid_run db vd now co o0 hc ho
  refine ⟨db2, ⟨true, some o0.id⟩, heq, rfl, ?_⟩
  have hprog : db2.progress = (paidFlowDB db vd now o0).progress := by
    rcases hcases with ⟨_, h2⟩ | ⟨_, h2⟩
    · rw [h2]
    · rw [h2, enrollStudent_progress]
  have hlecs : db2.lectures = (paidFlowDB db vd now o0).lectures := by
    rcases hcases with ⟨_, h2⟩ | ⟨_, h2⟩
    · rw [h2]
    · rw [h2, enrollStudent_lectures]
  have hgeq : getUserLectureProgress db2 vd.userId vd.courseId =
      getUserLectureProgress (paidFlowDB db vd now o0) vd.userId vd.courseId :=
    getUserLectureProgress_congr hprog hlecs _ _
  have hspec := unlock_after_enroll_spec
    ({ db with orders := (db.orders.map
        (fun x => if x.razorpayOrderId == vd.razorpayOrderId
          then applyPaymentData (pdOf vd now) x else x)) })
    o0.studentId o0.courseId o0.id now huniq hcons hids
  have hspec' :
      (∀ lid, lid ∈ (rowsFor (paidFlowDB db vd now o0) o0.studentId o0.courseId).map
            Progress.lectureId ↔
          lid ∈ (lecturesOf db o0.courseId).map Lecture.id) ∧
      (∀ p ∈ rowsFor (paidFlowDB db vd now o0) o0.studentId o0.courseId, p.isUnlocked = true) ∧
      (rowsFor (paidFlowDB db vd now o0) o0.studentId o0.courseId).length =
        (lecturesOf db o0.courseId).length := hspec
  have hfind : ∀ p ∈ rowsFor (paidFlowDB db vd now o0) o0.studentId o0.courseId,
      ((paidFlowDB db vd now o0).lectures.find? (fun l => l.id == p.lectureId)).isSome := by
    intro p hp
    have hk := (hspec'.1 p.lectureId).1 (List.mem_map.2 ⟨p, hp, rfl⟩)
    rw [List.mem_map] at hk
    obtain ⟨l, hl, hle⟩ := hk
    rw [paidFlowDB_lectures]
    exact List.find?_isSome.2 ⟨l, (mem_lecturesOf.1 hl).1, by simp [hle]⟩
  have hg := getUserLectureProgress_spec (paidFlowDB db vd now o0) o0.studentId o0.courseId hfind
  rw [hu, hcc] at hspec' hg
  rw [hgeq]
  obtain ⟨hg1, hg2, hg3, hg4⟩ := hg
  refine ⟨?_, ?_, hg3, ?_⟩
  · rw [hg1, hspec'.2.2]
  · intro pl hpl
    exact hspec'.2.1 pl.1 (hg2 pl hpl).1
  · intro l hl
    have hmem := (hspec'.1 l.id).2 (List.mem_map.2 ⟨l, hl, rfl⟩)
    rw [List.mem_map] at hmem
    obtain ⟨p, hp, hpe⟩ := hmem
    obtain ⟨pl, hpl, hple⟩ := hg4 p hp
    exact ⟨pl, hpl, by rw [hple, hpe]⟩

theorem C4_witness :
    findCourseById exDBord exVD.courseId = some { id := 1, price := some 100 } ∧
      findByRazorpayOrderId exDBord exVD.razorpayOrderId = some exOrderW ∧
      uniqueProgressKeys exDBord ∧ progressConsistent exDBord ∧ lectureIdsNodup exDBord ∧
      (∃ db2 r, verifyPayment exDBord GatewayOrderStatus.paid exVD 20 = VPResult.ok db2 r ∧
        r.success = true ∧
        (getUserLectureProgress db2 exVD.userId exVD.courseId).length =
          (lecturesOf exDBord exVD.courseId).length ∧
        (∀ pl ∈ getUserLectureProgress db2 exVD.userId exVD.courseId, pl.1.isUnlocked = true) ∧
        (getUserLectureProgress db2 exVD.userId exVD.courseId).Pairwise
          (fun x y => x.2.position ≤ y.2.position) ∧
        (∀ l ∈ lecturesOf exDBord exVD.courseId,
          ∃ pl ∈ getUserLectureProgress db2 exVD.userId exVD.courseId, pl.1.lectureId = l.id)) :=
  ⟨by decide, by decide, by unfold uniqueProgressKeys; decide,
    by unfold progressConsistent; decide, by unfold lectureIdsNodup; decide,
    C4_full_unlock_after_payment exDBord exVD 20 { id := 1, price := some 100 } exOrderW
      (by decide) (by decide) (by decide) (by decide)
      (by unfold uniqueProgressKeys; decide) (by unfold progressConsistent; decide)
      (by unfold lectureIdsNodup; decide)⟩

theorem findByRazorpayOrderId_eq_of_orders {db1 db2 : DB} (h : db1.orders = db2.orders)
    (rid : Nat) : findByRazorpayOrderId db1 rid = findByRazorpayOrderId db2 rid := by
  unfold findByRazorpayOrderId; rw [h]

/-- State facts established by a successful paid `verifyPayment` run. -/
theorem verifyPayment_paid_post (db : DB) (vd : VerifyData) (now : Nat) (co : Course) (o0 : Order)
    (hc : findCourseById db vd.courseId = some co)
    (ho : findByRazorpayOrderId db vd.razorpayOrderId = some o0)
    (db1 : DB) (r1 : PaymentVerificationResponse)
    (heq : verifyPayment db GatewayOrderStatus.paid vd now = VPResult.ok db1 r1) :
    db1.courses = db.courses ∧
    db1.lectures = db.lectures ∧
    (ordersWithRid db1 vd.razorpayOrderId).length = (ordersWithRid db vd.razorpayOrderId).length ∧
    findByRazorpayOrderId db1 vd.razorpayOrderId = some (applyPaymentData (pdOf vd now) o0) ∧
    (∀ l ∈ lecturesOf db o0.courseId,
      hasKey db1 o0.studentId l.id ∧ allKeyUnlocked db1 o0.studentId l.id) ∧
    hasEnrKey db1 o0.studentId o0.courseId ∧
    (∀ e ∈ db1.enrollments, e.userId = o0.studentId → e.courseId = o0.courseId →
      e.orderId = some o0.id) ∧
    hasEnrKey db1 vd.userId vd.courseId ∧
    (uniqueEnrollmentKeys db → uniqueEnrollmentKeys db1) := by
  obtain ⟨db2, heq', hcases⟩ := verifyPayment_paid_run db vd now co o0 hc ho
  have hdb : db2 = db1 := by
    rw [heq] at heq'
    injection heq'.symm
  rw [hdb] at hcases
  rcases hcases with ⟨hsome, h2⟩ | ⟨hnone, h2⟩
  · subst h2
    refine ⟨paidFlowDB_courses db vd now o0, paidFlowDB_lectures db vd now o0, ?_, ?_, ?_, ?_, ?_, ?_, ?_⟩
    · exact paidFlowDB_ordersWithRid_length db vd now o0 vd.razorpayOrderId
    · exact findByRazorpayOrderId_paidFlowDB db vd now o0 ho
    · exact paidFlowDB_unlocked db vd now o0
    · exact paidFlowDB_hasEnrKey db vd now o0
    · exact paidFlowDB_enr_orderId db vd now o0
    · exact findEnrollment_isSome_iff.1 hsome
    · exact paidFlowDB_uniqueEnrollmentKeys db vd now o0
  · subst h2
    have hpe : (enrollStudent (paidFlowDB db vd now o0) vd.courseId vd.userId now).progress =
        (paidFlowDB db vd now o0).progress := enrollStudent_progress _ _ _ _
    refine ⟨?_, ?_, ?_, ?_, ?_, ?_, ?_, ?_, ?_⟩
    · rw [enrollStudent_courses, paidFlowDB_courses]
    · rw [enrollStudent_lectures, paidFlowDB_lectures]
    · rw [ordersWithRid_eq_of_orders (enrollStudent_orders _ _ _ _) vd.razorpayOrderId]
      exact paidFlowDB_ordersWithRid_length db vd now o0 vd.razorpayOrderId
    · rw [findByRazorpayOrderId_eq_of_orders (enrollStudent_orders _ _ _ _) vd.razorpayOrderId]
      exact findByRazorpayOrderId_paidFlowDB db vd now o0 ho
    · intro l hl
      exact ⟨hasKey_of_progress_eq hpe (paidFlowDB_unlocked db vd now o0 l hl).1,
        allKeyUnlocked_of_progress_eq hpe (paidFlowDB_unlocked db vd now o0 l hl).2⟩
    · exact hasEnrKey_enrollStudent_mono _ _ _ (paidFlowDB_hasEnrKey db vd now o0)
    · exact enrollKey_orderId_enrollStudent _ _ _ (paidFlowDB_hasEnrKey db vd now o0)
        (paidFlowDB_enr_orderId db vd now o0) hnone
    · exact hasEnrKey_enrollStudent_self _ _ _ _
    · intro h
      exact uniqueEnrollmentKeys_enrollStudent _ _ _
        (paidFlowDB_uniqueEnrollmentKeys db vd now o0 h)

/-- C3: calling `verifyPayment` a second time on an already-confirmed
order raises no error and yields the same final state as one call: the
same single Enrollment row for the (student, course) pair, the same
progress table (hence the same set of unlocked lectures), and exactly
one Order row for the gateway order id. -/
theorem C3_idempotent_confirmation (db : DB) (vd : VerifyData) (now1 now2 : Nat) (co : Course)
    (o0 : Order)
    (hc : findCourseById db vd.courseId = some co)
    (ho : findByRazorpayOrderId db vd.razorpayOrderId = some o0)
    (hrid : (ordersWithRid db vd.razorpayOrderId).length = 1)
    (henr : uniqueEnrollmentKeys db) :
    ∃ db1 r1 db2 r2,
      verifyPayment db GatewayOrderStatus.paid vd now1 = VPResult.ok db1 r1 ∧
      verifyPayment db1 GatewayOrderStatus.paid vd now2 = VPResult.ok db2 r2 ∧
      r2.success = true ∧
      db2.progress = db1.progress ∧
      db2.enrollments = db1.enrollments ∧
      enrollmentsFor db2 vd.userId vd.courseId = enrollmentsFor db1 vd.userId vd.courseId ∧
      (enrollmentsFor db1 vd.userId vd.courseId).length = 1 ∧
      (ordersWithRid db2 vd.razorpayOrderId).length = 1 := by
  obtain ⟨db1, heq1, _⟩ := verifyPayment_paid_run db vd now1 co o0 hc ho
  obtain ⟨hcou, hlec, hord, ho1, hunl, hek, hset, hekv, huq⟩ :=
    verifyPayment_paid_post db vd now1 co o0 hc ho db1 ⟨true, some o0.id⟩ heq1
  have hc1 : findCourseById db1 vd.courseId = some co := by
    rw [findCourseById_eq_of_courses hcou vd.courseId, hc]
  obtain ⟨db2, heq2, hcases2⟩ :=
    verifyPayment_paid_run db1 vd now2 co (applyPaymentData (pdOf vd now1) o0) hc1 ho1
  -- the second paid flow is the identity apart from the order-row rewrite
  have hpfeq : paidFlowDB db1 vd now2 (applyPaymentData (pdOf vd now1) o0) =
      { db1 with orders := (db1.orders.map
          (fun x => if x.razorpayOrderId == vd.razorpayOrderId
            then applyPaymentData (pdOf vd now2) x else x)) } := by
    unfold paidFlowDB
    rw [show (applyPaymentData (pdOf vd now1) o0).studentId = o0.studentId from rfl,
      show (applyPaymentData (pdOf vd now1) o0).courseId = o0.courseId from rfl,
      show (applyPaymentData (pdOf vd now1) o0).id = o0.id from rfl]
    have hcoe : createOrUpdateEnrollment
        { db1 with orders := (db1.orders.map
            (fun x => if x.razorpayOrderId == vd.razorpayOrderId
              then applyPaymentData (pdOf vd now2) x else x)) }
        o0.studentId o0.courseId o0.id now2 =
        { db1 with orders := (db1.orders.map
            (fun x => if x.razorpayOrderId == vd.razorpayOrderId
              then applyPaymentData (pdOf vd now2) x else x)) } := by
      refine createOrUpdateEnrollment_id now2 ?_ ?_
      · exact hasEnrKey_of_enrollments_eq rfl hek
      · intro e he h1 h2
        exact hset e he h1 h2
    rw [hcoe]
    refine unlockCourseLectures_id ?_
    intro l hl
    have hl' : l ∈ lecturesOf db o0.courseId := by
      have : lecturesOf
          { db1 with orders := (db1.orders.map
              (fun x => if x.razorpayOrderId == vd.razorpayOrderId
                then applyPaymentData (pdOf vd now2) x else x)) } o0.courseId =
          lecturesOf db o0.courseId := by
        refine lecturesOf_eq_of_lectures ?_ o0.courseId
        rw [show ({ db1 with orders := (db1.orders.map
            (fun x => if x.razorpayOrderId == vd.razorpayOrderId
              then applyPaymentData (pdOf vd now2) x else x)) } : DB).lectures = db1.lectures
          from rfl, hlec]
      rw [this] at hl
      exact hl
    exact ⟨hasKey_of_progress_eq rfl (hunl l hl').1,
      allKeyUnlocked_of_progress_eq rfl (hunl l hl').2⟩
  rcases hcases2 with ⟨_, h2⟩ | ⟨hnone2, _⟩
  · refine ⟨db1, ⟨true, some o0.id⟩, db2, ⟨true, some o0.id⟩, heq1, ?_, rfl, ?_, ?_, ?_, ?_, ?_⟩
    · rw [heq2]
      rfl
    · rw [h2, hpfeq]
    · rw [h2, hpfeq]
    · refine enrollmentsFor_eq_of_enrollments ?_ vd.userId vd.courseId
      rw [h2, hpfeq]
    · exact enrollmentsFor_length_one (huq henr) hekv
    · have hdbo : db2.orders = db1.orders.map
          (fun x => if x.razorpayOrderId == vd.razorpayOrderId
            then applyPaymentData (pdOf vd now2) x else x) := by
        rw [h2, hpfeq]
      unfold ordersWithRid
      rw [hdbo]
      rw [length_filter_map_same_pred _ _
        (orderMapFn_pred vd.razorpayOrderId vd.razorpayOrderId (pdOf vd now2)) db1.orders]
      rw [show (db1.orders.filter (fun o => o.razorpayOrderId == vd.razorpayOrderId)).length =
          (ordersWithRid db1 vd.razorpayOrderId).length from rfl, hord]
      exact hrid
  · rw [hpfeq] at hnone2
    rw [findEnrollment_eq_of_enrollments rfl vd.userId vd.courseId] at hnone2
    have : (findEnrollment db1 vd.userId vd.courseId).isSome :=
      findEnrollment_isSome_iff.2 hekv
    rw [show findEnrollment { db1 with orders := (db1.orders.map
        (fun x => if x.razorpayOrderId == vd.razorpayOrderId
          then applyPaymentData (pdOf vd now2) x else x)) } vd.userId vd.courseId =
        findEnrollment db1 vd.userId vd.courseId from rfl] at hnone2
    rw [hnone2] at this
    cases this

theorem C3_witness :
    findCourseById exDBord exVD.courseId = some { id := 1, price := some 100 } ∧
      findByRazorpayOrderId exDBord exVD.razorpayOrderId = some exOrderW ∧
      (ordersWithRid exDBord exVD.razorpayOrderId).length = 1 ∧
      uniqueEnrollmentKeys exDBord ∧
      (∃ db1 r1 db2 r2,
        verifyPayment exDBord GatewayOrderStatus.paid exVD 20 = VPResult.ok db1 r1 ∧
        verifyPayment db1 GatewayOrderStatus.paid exVD 30 = VPResult.ok db2 r2 ∧
        r2.success = true ∧
        db2.progress = db1.progress ∧
        db2.enrollments = db1.enrollments ∧
        enrollmentsFor db2 exVD.userId exVD.courseId = enrollmentsFor db1 exVD.userId exVD.courseId ∧
        (enrollmentsFor db1 exVD.userId exVD.courseId).length = 1 ∧
        (ordersWithRid db2 exVD.razorpayOrderId).length = 1) :=
  ⟨by decide, by decide, by decide, by unfold uniqueEnrollmentKeys; decide,
    C3_idempotent_confirmation exDBord exVD 20 30 { id := 1, price := some 100 } exOrderW
      (by decide) (by decide) (by decide) (by unfold uniqueEnrollmentKeys; decide)⟩

theorem C9_amended_witness :
    reorderLectures exDB2 1 [(1, 2), (2, 1)] = some exDB9r ∧
      lectureIdsNodup exDB2 ∧
      (∀ l ∈ lecturesOf exDB2 1, l.id ∈ ([(1, 2), (2, 1)] : List (Nat × Nat)).map Prod.fst) ∧
      (lecturesOf exDB9r 1).Pairwise (fun a b => a.position ≠ b.position) :=
  ⟨by decide, by unfold lectureIdsNodup; decide, by decide,
    (C9_amended_reorder_positions exDB2 1 [(1, 2), (2, 1)] exDB9r (by decide)
      (by unfold lectureIdsNodup; decide) (by decide) (by decide) (by decide)).1⟩

end LMS
